import Mathlib

/-!
# mangaupdatescli: the help-content generator and renderer

A shallow embedding of `tools/helpcodegen/main.go` (the help record builder that
turns one OpenAPI operation into a `HelpGenData` record) together with the
properties of the records it produces.

Conventions of the embedding:

* A Go `string` is a Lean `String`. The inputs come from a YAML document, so they
  are valid UTF-8, and for such text Go's byte-wise comparison of strings agrees
  with the lexicographic comparison of the code points, which is the order used
  here (`strLess`, and `<` on `String`).
* A Go `map[string]V` is an association list `GoMap V`. The order of the list is
  the order in which one `range` over the map enumerates it, which Go leaves
  unspecified; a well-formed map has no repeated key (`GoMap.WellFormed`). A map
  field that can be `nil` is an `Option (GoMap V)`.
* A pointer that can be `nil` is an `Option`.
* A value of type `interface{}` decoded from YAML is a `Value`.
* A Go `int` is a 64-bit integer: `level + 1` in the depth limiter is `incInt`,
  which wraps from `maxInt` to `minInt`.
-/

namespace HelpCodeGen

/-! ## Go values and library functions -/

/-- A dynamically typed value (`interface{}`): `null` is the nil interface. A
`float64` is carried by its `%v` text, float formatting being outside the model. -/
inductive Value where
  | null
  | str (s : String)
  | int (i : Int)
  | bool (b : Bool)
  | float (text : String)
  | seq (xs : List Value)
  | map (kvs : List (String × Value))

/-- A Go map with string keys, as the list of its entries in enumeration order. -/
abbrev GoMap (V : Type) := List (String × V)

/-- The two-result lookup `v, ok := m[k]`. -/
def GoMap.get {V : Type} (m : GoMap V) (k : String) : Option V :=
  List.lookup k m

/-- The keys of a map, in enumeration order. -/
def GoMap.keys {V : Type} (m : GoMap V) : List String :=
  m.map Prod.fst

/-- A Go map holds each key once. -/
def GoMap.WellFormed {V : Type} (m : GoMap V) : Prop :=
  m.keys.Nodup

instance {V : Type} (m : GoMap V) : Decidable m.WellFormed :=
  inferInstanceAs (Decidable m.keys.Nodup)

/-- The assignment `m[k] = v`: the entry of `k` is overwritten where it stands, a
new key is added. -/
def GoMap.set {V : Type} : GoMap V → String → V → GoMap V
  | [], k, v => [(k, v)]
  | (k', v') :: m, k, v => if k' = k then (k, v) :: m else (k', v') :: GoMap.set m k v

/-- The comparison `a < b` of two Go strings. -/
def strLess (a b : String) : Bool :=
  decide (a.data < b.data)

/-- Insertion of one string into an ascending list. -/
def insertSorted (a : String) : List String → List String
  | [] => [a]
  | b :: bs => if strLess b a then b :: insertSorted a bs else a :: b :: bs

/-- The library call `sort.Strings`: the ascending rearrangement of the slice. -/
def sortStrings : List String → List String
  | [] => []
  | a :: as => insertSorted a (sortStrings as)

/-- The library call `strings.Join(parts, sep)`. -/
def join : List String → String → String
  | [], _ => ""
  | [a], _ => a
  | a :: b :: rest, sep => a ++ sep ++ join (b :: rest) sep

/-- The library call `strings.HasPrefix(s, prefix)`. -/
def hasPrefix (s pre : String) : Bool :=
  pre.data.isPrefixOf s.data

/-- The library call `strings.ReplaceAll(s, old, new)` for one-character `old` and
`new`, the only way the generator calls it. -/
def replaceAllChars (old new : Char) : List Char → List Char
  | [] => []
  | c :: cs => (if c = old then new else c) :: replaceAllChars old new cs

/-- The string form of `replaceAllChars`. -/
def replaceAll (s : String) (old new : Char) : String :=
  ⟨replaceAllChars old new s.data⟩

/-- The pieces of `strings.Split(s, sep)` for a one-character separator: the first
piece and the pieces after it (the result of `Split` is never empty). -/
def splitChars (sep : Char) : List Char → List Char × List (List Char)
  | [] => ([], [])
  | c :: cs =>
    if c = sep then ([], (splitChars sep cs).1 :: (splitChars sep cs).2)
    else (c :: (splitChars sep cs).1, (splitChars sep cs).2)

/-- The library call `strings.Split(s, sep)` for a one-character separator. -/
def split (s : String) (sep : Char) : List String :=
  (((splitChars sep s.data).1 :: (splitChars sep s.data).2).map String.mk)

/-- The digit `lowerhex[n]` of `strconv`. -/
def lowerhex (n : Nat) : Char :=
  "0123456789abcdef".data.getD n '0'

/-- The predicate `strconv.IsPrint`: decided by ranges up to U+00FF, and by the
Unicode tables `tbl` (a parameter of the model) above. -/
def IsPrint (tbl : Char → Bool) (c : Char) : Bool :=
  if c.toNat ≤ 0xFF then
    if 0x20 ≤ c.toNat ∧ c.toNat < 0x7F then true
    else if 0xA1 ≤ c.toNat then decide (c.toNat ≠ 0xAD)
    else false
  else tbl c

/-- The escape of one rune inside a double-quoted Go string literal
(`appendEscapedRune` of `strconv` with the quote character `"`). -/
def appendEscapedRune (tbl : Char → Bool) (c : Char) : List Char :=
  if c = Char.ofNat 0x22 ∨ c = Char.ofNat 0x5c then [Char.ofNat 0x5c, c]
  else if IsPrint tbl c then [c]
  else if c.toNat = 0x07 then [Char.ofNat 0x5c, 'a']
  else if c.toNat = 0x08 then [Char.ofNat 0x5c, 'b']
  else if c.toNat = 0x0c then [Char.ofNat 0x5c, 'f']
  else if c.toNat = 0x0a then [Char.ofNat 0x5c, 'n']
  else if c.toNat = 0x0d then [Char.ofNat 0x5c, 'r']
  else if c.toNat = 0x09 then [Char.ofNat 0x5c, 't']
  else if c.toNat = 0x0b then [Char.ofNat 0x5c, 'v']
  else if c.toNat < 0x20 ∨ c.toNat = 0x7f then
    [Char.ofNat 0x5c, 'x', lowerhex (c.toNat / 16 % 16), lowerhex (c.toNat % 16)]
  else if c.toNat < 0x10000 then
    [Char.ofNat 0x5c, 'u', lowerhex (c.toNat / 4096 % 16), lowerhex (c.toNat / 256 % 16),
      lowerhex (c.toNat / 16 % 16), lowerhex (c.toNat % 16)]
  else
    [Char.ofNat 0x5c, 'U', lowerhex (c.toNat / 268435456 % 16),
      lowerhex (c.toNat / 16777216 % 16), lowerhex (c.toNat / 1048576 % 16),
      lowerhex (c.toNat / 65536 % 16), lowerhex (c.toNat / 4096 % 16),
      lowerhex (c.toNat / 256 % 16), lowerhex (c.toNat / 16 % 16), lowerhex (c.toNat % 16)]

/-- The escaped runes of a string, in order. -/
def escapeChars (tbl : Char → Bool) : List Char → List Char
  | [] => []
  | c :: cs => appendEscapedRune tbl c ++ escapeChars tbl cs

/-- The verb `%q` on a string (`strconv.Quote`): the double-quoted Go literal. -/
def quote (tbl : Char → Bool) (s : String) : String :=
  ⟨Char.ofNat 0x22 :: (escapeChars tbl s.data ++ [Char.ofNat 0x22])⟩

/-- Insertion of one rendered map entry into a list ascending by key. -/
def insertEntry (e : String × String) : List (String × String) → List (String × String)
  | [] => [e]
  | f :: fs => if strLess f.1 e.1 then f :: insertEntry e fs else e :: f :: fs

/-- The entries of a map ordered by key, as `fmt` prints them. -/
def sortEntries : List (String × String) → List (String × String)
  | [] => []
  | e :: es => insertEntry e (sortEntries es)

mutual
/-- The verb `%v` on a dynamically typed value. -/
def sprintV : Value → String
  | .null => "<nil>"
  | .str s => s
  | .int i => toString i
  | .bool b => toString b
  | .float t => t
  | .seq xs => "[" ++ join (sprintVs xs) " " ++ "]"
  | .map kvs =>
    "map[" ++ join ((sortEntries (sprintKVs kvs)).map fun e => e.1 ++ ":" ++ e.2) " " ++ "]"
/-- The renderings of the elements of a sequence. -/
def sprintVs : List Value → List String
  | [] => []
  | v :: vs => sprintV v :: sprintVs vs
/-- The keys of a map with the renderings of their values. -/
def sprintKVs : List (String × Value) → List (String × String)
  | [] => []
  | (k, v) :: kvs => (k, sprintV v) :: sprintKVs kvs
end

/-! ## The OpenAPI data model (`tools/helpcodegen/main.go`) -/

mutual
/-- The struct `RefSchema`: a reference, a declared type (`Typ` is the field
`Type`) and, for arrays, a pointer to the item schema. -/
inductive RefSchema where
  | mk (Ref : String) (Typ : String) (Items : RefSchemaPtr)
/-- The type `*RefSchema`: nil, or a pointer to a schema. -/
inductive RefSchemaPtr where
  | nil
  | ptr (schema : RefSchema)
end

/-- The field `Ref` of a `RefSchema`. -/
def RefSchema.Ref : RefSchema → String
  | .mk r _ _ => r

/-- The field `Type` of a `RefSchema`. -/
def RefSchema.Typ : RefSchema → String
  | .mk _ t _ => t

/-- The field `Items` of a `RefSchema`. -/
def RefSchema.Items : RefSchema → RefSchemaPtr
  | .mk _ _ i => i

/-- The test `p == nil` on a pointer to a schema. -/
def RefSchemaPtr.isNil : RefSchemaPtr → Bool
  | .nil => true
  | .ptr _ => false

/-- The struct `MediaType`. -/
structure MediaType where
  Schema : RefSchema

/-- The struct `ParameterSchema`; `Typ` is the field `Type`. -/
structure ParameterSchema where
  Typ : String
  Format : String
  Default : Value
  Enum : List String

/-- The struct `Parameter`. -/
structure Parameter where
  Name : String
  In : String
  Description : String
  Required : Bool
  Schema : ParameterSchema

/-- The struct `RequestBody`; `Content` is `none` for a nil map. -/
structure RequestBody where
  Description : String
  Required : Bool
  Content : Option (GoMap MediaType)

/-- The struct `Response`; `Content` is `none` for a nil map. -/
structure Response where
  Description : String
  Content : Option (GoMap MediaType)

/-- The struct `OperationDetail`; `RequestBody` is `none` for a nil pointer. -/
structure OperationDetail where
  Tags : List String
  Summary : String
  OperationID : String
  Parameters : List Parameter
  RequestBody : Option RequestBody
  Responses : GoMap Response
  Security : List (GoMap (List String))

/-- The struct `OpenAPISpec`; a `PathItem` is a map from method to operation. -/
structure OpenAPISpec where
  Paths : GoMap (GoMap OperationDetail)
  Security : List (GoMap (List String))

/-- The struct `ArgHelpGo`. -/
structure ArgHelpGo where
  Name : String
  Typ : String
  Required : Bool
  Description : String
  Default : String

/-- The help content of the struct `HelpGenData` (the record of one operation).
The field `HelpVarName`, the name of the generated Go variable, is no part of the
help content and is left out. -/
structure HelpGenData where
  PackageName : String
  Usage : String
  Description : String
  Arguments : List ArgHelpGo
  InputJSON : String
  OutputJSON : String
  ErrorExample : String
  AuthRequired : Bool

/-! ## The help record builder -/

/-- The function `getSchemaRefName` (the resolver). The last element of
`strings.Split` is taken with the proof that the result of `Split` is not empty. -/
def getSchemaRefName : RefSchemaPtr → String
  | .nil => "interface\x7b\x7d"
  | .ptr (.mk ref typ items) =>
    if ref ≠ "" then
      (split ref '/').getLast (by simp [split])
    else if typ = "array" ∧ !items.isNil then "[]" ++ getSchemaRefName items
    else if typ = "" then "object"
    else typ

/-- The expression computed into `authRequired` for one operation. -/
def authRequired (opSecurity specSecurity : List (GoMap (List String))) : Bool :=
  decide (opSecurity.length > 0) || (decide (opSecurity.length = 0) && decide (specSecurity.length > 0))

/-- The variable `paramTypeStr` of the parameter loop. -/
def paramTypeStr (param : Parameter) : String :=
  if param.Schema.Format ≠ "" then param.Schema.Typ ++ "(" ++ param.Schema.Format ++ ")"
  else param.Schema.Typ

/-- The variable `usageParamStr` of the parameter loop, at the end of the body. -/
def usageParamStr (param : Parameter) : String :=
  let paramNameFlag := replaceAll param.Name '_' '-'
  let usageParamStr := "--" ++ paramNameFlag ++ " <" ++ paramTypeStr param ++ ">"
  if !param.Required then "[" ++ usageParamStr ++ "]" else usageParamStr

/-- The variable `argDefault` of the parameter loop. -/
def argDefault (param : Parameter) : String :=
  match param.Schema.Default with
  | .null => ""
  | v => sprintV v

/-- The two slices the parameter loop appends to. -/
structure ParamLoopState where
  usageParts : List String
  Arguments : List ArgHelpGo

/-- One iteration of the loop over `opData.Details.Parameters`. -/
def paramLoopBody (st : ParamLoopState) (param : Parameter) : ParamLoopState :=
  { usageParts := st.usageParts ++ [usageParamStr param]
    Arguments := st.Arguments ++
      [{ Name := param.Name, Typ := paramTypeStr param, Required := param.Required,
         Description := param.Description, Default := argDefault param }] }

/-- The loop over the parameters, from `usageParts = [program, spName, opID]` and
no argument. A nil slice of parameters skips the loop, as the empty list does. -/
def paramLoop (spName cliCommandName : String) (params : List Parameter) : ParamLoopState :=
  params.foldl paramLoopBody
    { usageParts := ["mangaupdatescli", spName, cliCommandName], Arguments := [] }

/-- The field `Usage`: the joined parts, and the marker when authentication is
required. -/
def Usage (spName cliCommandName : String) (params : List Parameter) (auth : Bool) : String :=
  let usage := join (paramLoop spName cliCommandName params).usageParts " "
  if auth then usage ++ " [REQUIRES AUTH]" else usage

/-- The suffix rule shared by the three request-body summaries. -/
def withRequired (summary : String) (required : Bool) : String :=
  if required then summary ++ " (required)" else summary

/-- The summary of a request body with the content-type map `content`: the three
branches `application/json`, `multipart/form-data`, anything else. -/
def requestBodySummary (rb : RequestBody) (content : GoMap MediaType) : String :=
  match content.get "application/json" with
  | some rbJSON =>
    withRequired ("Request Body Schema: <" ++ getSchemaRefName (.ptr rbJSON.Schema) ++ ":L1>")
      rb.Required
  | none =>
    match content.get "multipart/form-data" with
    | some _ => withRequired "Request Body: Multipart Form Data" rb.Required
    | none => withRequired "Request Body: Present" rb.Required

/-- The summary when the test `RequestBody != nil && RequestBody.Content != nil`
fails: decided by `len(data.Arguments) > 0`. -/
def parametersSummary (arguments : List ArgHelpGo) : String :=
  if arguments.length > 0 then "Path/Query Parameters" else "None"

/-- The field `InputJSON`, from the request body and the arguments built so far:
the body decides when it is not nil and its content-type map is not nil. -/
def InputJSON (requestBody : Option RequestBody) (arguments : List ArgHelpGo) : String :=
  match requestBody with
  | some rb =>
    match rb.Content with
    | some content => requestBodySummary rb content
    | none => parametersSummary arguments
  | none => parametersSummary arguments

/-- The slice `successStatusCodes`. -/
def successStatusCodes : List String := ["200", "201", "202", "204"]

/-- The variable `successStatusCode`: the first listed code that is a key of the
responses, the empty string when there is none. -/
def successStatusCode (responses : GoMap Response) : String :=
  (successStatusCodes.find? (fun code => (responses.get code).isSome)).getD ""

/-- The zero value of `Response`, the result of looking up an absent key. -/
def Response.zero : Response :=
  { Description := "", Content := none }

/-- The summary of the success response `respSuccess` found under the status
`code`. When the content-type map has neither JSON nor XML and is not empty, the
loop over it stops at the first entry enumerated. -/
def successSummary (code : String) (respSuccess : Response) : String :=
  match respSuccess.Content with
  | some content =>
    match content.get "application/json" with
    | some contentJSON =>
      "Schema (on " ++ code ++ "): <" ++ getSchemaRefName (.ptr contentJSON.Schema) ++ ":L1>"
    | none =>
      match content.get "application/xml" with
      | some _ => "XML Output (on " ++ code ++ ")"
      | none =>
        match content with
        | (contentType, _) :: _ => "Output (on " ++ code ++ "): " ++ contentType
        | [] =>
          if code = "204" then "No Content (on " ++ code ++ ")"
          else "Success Response (on " ++ code ++ ", content type unspecified or empty)"
  | none => "Success Response (on " ++ code ++ ", no content defined)"

/-- The field `OutputJSON`. -/
def OutputJSON (responses : GoMap Response) : String :=
  let code := successStatusCode responses
  if code ≠ "" then successSummary code ((responses.get code).getD Response.zero)
  else "Schema: <ApiResponseV1:L1> (Default success, or specific success code)"

/-- The variable `schemaName` of the error loop: the resolved label of the JSON
content, the empty string when there is none. -/
def errorSchemaName (respInfo : Response) : String :=
  match respInfo.Content with
  | some content =>
    match content.get "application/json" with
    | some contentJSON => getSchemaRefName (.ptr contentJSON.Schema)
    | none => ""
  | none => ""

/-- The message stored in `errorMap` for one 4xx/5xx response. -/
def errorMessage (respInfo : Response) : String :=
  let errDesc := respInfo.Description
  let schemaName := errorSchemaName respInfo
  if schemaName ≠ "" ∧ schemaName ≠ "ApiResponseV1" then
    errDesc ++ " (Schema: <" ++ schemaName ++ ":L1>)"
  else errDesc

/-- The test of the error loop on a status code: it begins with `4` or with `5`. -/
def isErrorCode (code : String) : Bool :=
  hasPrefix code "4" || hasPrefix code "5"

/-- One iteration of the loop over the responses that fills `errorMap`. -/
def errorLoopBody (errorMap : GoMap String) (entry : String × Response) : GoMap String :=
  if isErrorCode entry.1 then errorMap.set entry.1 (errorMessage entry.2)
  else errorMap

/-- The map `errorMap` after the loop over the responses. -/
def errorMap (responses : GoMap Response) : GoMap String :=
  responses.foldl errorLoopBody []

/-- The entries written between the braces: `%q: %q` for each key in turn, with
`", "` after every entry but the last. -/
def writeEntries (tbl : Char → Bool) (m : GoMap String) : List String → String
  | [] => ""
  | [k] => quote tbl k ++ ": " ++ quote tbl ((m.get k).getD "")
  | k :: k' :: ks =>
    quote tbl k ++ ": " ++ quote tbl ((m.get k).getD "") ++ ", " ++ writeEntries tbl m (k' :: ks)

/-- The slice `keys` of the serialization, after `sort.Strings`. -/
def errorKeys (responses : GoMap Response) : List String :=
  sortStrings (errorMap responses).keys

/-- The field `ErrorExample`: the Go map literal of `errorMap`, or the generic one. -/
def ErrorExample (tbl : Char → Bool) (responses : GoMap Response) : String :=
  if (errorMap responses).length > 0 then
    "map[string]string\x7b" ++ writeEntries tbl (errorMap responses) (errorKeys responses) ++ "\x7d"
  else "map[string]string\x7b\"Generic\": \"Standard API errors.\"\x7d"

/-- The record built in the body of the loop over the operations of a subprogram
(`spName`, `opID` and `opData.Details` of the source; `specSecurity` is
`spec.Security`). -/
def buildHelpGenData (tbl : Char → Bool) (specSecurity : List (GoMap (List String)))
    (spName opID : String) (details : OperationDetail) : HelpGenData :=
  let cliCommandName := opID
  let auth := authRequired details.Security specSecurity
  let arguments := (paramLoop spName cliCommandName details.Parameters).Arguments
  { PackageName := spName
    Usage := Usage spName cliCommandName details.Parameters auth
    Description := details.Summary
    Arguments := arguments
    InputJSON := InputJSON details.RequestBody arguments
    OutputJSON := OutputJSON details.Responses
    ErrorExample := ErrorExample tbl details.Responses
    AuthRequired := auth }

/-! ## Sample inputs -/

/-- A schema that is a reference to the named component `name`. -/
def refTo (name : String) : RefSchema :=
  .mk ("#/components/schemas/" ++ name) "" .nil

/-- An operation with nothing declared but its identifier and tag. -/
def bareOperation : OperationDetail :=
  { Tags := ["series"], Summary := "", OperationID := "op", Parameters := [],
    RequestBody := none, Responses := [], Security := [] }

/-- A string parameter named `id`, required, without format or default. -/
def idParameter : Parameter :=
  { Name := "id", In := "path", Description := "", Required := true,
    Schema := { Typ := "string", Format := "", Default := .null, Enum := [] } }

/-- A required request body offered both as multipart form data and as JSON. -/
def jsonAndMultipartBody : RequestBody :=
  { Description := "", Required := true,
    Content := some [("multipart/form-data", { Schema := .mk "" "object" .nil }),
                     ("application/json", { Schema := refTo "Foo" })] }

/-- A required request body offered as multipart form data only. -/
def multipartBody : RequestBody :=
  { Description := "", Required := true,
    Content := some [("multipart/form-data", { Schema := .mk "" "object" .nil })] }

/-- The responses `200` with JSON schema `Foo` and `404` described `Not found`. -/
def fooResponses : GoMap Response :=
  [("200", { Description := "OK",
             Content := some [("application/json", { Schema := refTo "Foo" })] }),
   ("404", { Description := "Not found", Content := none })]

/-- A `204` response without any `content` key. -/
def noContentResponses : GoMap Response :=
  [("204", { Description := "Deleted", Content := none })]

/-- A `204` response whose `content` key holds an empty map. -/
def emptyContentResponses : GoMap Response :=
  [("204", { Description := "Deleted", Content := some [] })]

/-- A `404` response whose JSON schema is a reference that ends in `/`. -/
def trailingSlashResponses : GoMap Response :=
  [("404", { Description := "Not found",
             Content := some [("application/json",
               { Schema := .mk "#/components/schemas/" "" .nil })] })]

/-- Responses enumerated as `500`, `200`, `404`. -/
def unorderedResponses : GoMap Response :=
  [("500", { Description := "Server error", Content := none }),
   ("200", { Description := "OK",
             Content := some [("application/json", { Schema := refTo "Foo" })] }),
   ("404", { Description := "Not found", Content := none })]

/-! ## The wording of the specification, for the usage line -/

/-- The token of one parameter as the specification words it: `--`, the name with
every `_` replaced by `-`, ` <`, the type, the format in parentheses when there is
one, `>`; all of it in square brackets when the parameter is not required. -/
def specParamToken (p : Parameter) : String :=
  let token := "--" ++ String.mk (p.Name.data.map fun c => if c = '_' then '-' else c) ++ " <" ++
    p.Schema.Typ ++ (if p.Schema.Format ≠ "" then "(" ++ p.Schema.Format ++ ")" else "") ++ ">"
  if p.Required then token else "[" ++ token ++ "]"

/-- The usage line as the specification words it: the program, the subprogram and
the operation, then one token per parameter, joined by single spaces; then the
marker when authentication is required. -/
def specUsage (sp opId : String) (params : List Parameter) (auth : Bool) : String :=
  " ".intercalate (["mangaupdatescli", sp, opId] ++ params.map specParamToken) ++
    (if auth then " [REQUIRES AUTH]" else "")

/-! ## The help catalog generator: grouping and ordering -/

/-- The anonymous struct stored per operation in `subprogramOps`: the operation,
its path and its method. -/
structure OpData where
  Details : OperationDetail
  Path : String
  Method : String

/-- The body of the inner loop of the grouping pass, on the operation `opDetail`
found under `pathStr` and `methodStr`: an operation without identifier or without
tag is skipped; otherwise the group named by `Tags[0]` is created when missing
and the operation is stored in it under its identifier. -/
def groupLoopBody (pathStr methodStr : String) (subprogramOps : GoMap (GoMap OpData))
    (opDetail : OperationDetail) : GoMap (GoMap OpData) :=
  if opDetail.OperationID = "" then subprogramOps
  else
    match opDetail.Tags with
    | [] => subprogramOps
    | subprogramName :: _ =>
      let withGroup :=
        match subprogramOps.get subprogramName with
        | some _ => subprogramOps
        | none => subprogramOps.set subprogramName []
      withGroup.set subprogramName
        (((withGroup.get subprogramName).getD []).set opDetail.OperationID
          { Details := opDetail, Path := pathStr, Method := methodStr })

/-- The map `subprogramOps` after the two nested loops over `spec.Paths`. -/
def subprogramOps (spec : OpenAPISpec) : GoMap (GoMap OpData) :=
  spec.Paths.foldl
    (fun acc pathEntry =>
      pathEntry.2.foldl
        (fun acc opEntry => groupLoopBody pathEntry.1 opEntry.1 acc opEntry.2) acc)
    []

/-- The slice `opIDs` of one group after `sort.Strings`. -/
def opIDs (opsMap : GoMap OpData) : List String :=
  sortStrings opsMap.keys

/-- The zero value of the struct stored in `subprogramOps`. -/
def OpData.zero : OpData :=
  { Details := { Tags := [], Summary := "", OperationID := "", Parameters := [],
                 RequestBody := none, Responses := [], Security := [] },
    Path := "", Method := "" }

/-- The records of one group in the order they are written: for each identifier
of the sorted `opIDs`, the identifier and the record built from `opsMap[opID]`. -/
def groupRecords (tbl : Char → Bool) (specSecurity : List (GoMap (List String)))
    (spName : String) (opsMap : GoMap OpData) : List (String × HelpGenData) :=
  (opIDs opsMap).map fun opID =>
    (opID, buildHelpGenData tbl specSecurity spName opID
      ((opsMap.get opID).getD OpData.zero).Details)

/-- The catalog: for every group of `subprogramOps`, its name and its records. -/
def generate (tbl : Char → Bool) (spec : OpenAPISpec) :
    GoMap (List (String × HelpGenData)) :=
  (subprogramOps spec).map fun group =>
    (group.1, groupRecords tbl spec.Security group.1 group.2)

/-- The operations of the paths in the order the two nested loops visit them. -/
def operationsOf : GoMap (GoMap OperationDetail) → List OpData
  | [] => []
  | (pathStr, pathItem) :: rest =>
    pathItem.map (fun opEntry => { Details := opEntry.2, Path := pathStr, Method := opEntry.1 })
      ++ operationsOf rest

/-- The operation identifiers of an API description are unique: two operations
that have an identifier have different identifiers. -/
def UniqueOperationIDs (spec : OpenAPISpec) : Prop :=
  (operationsOf spec.Paths).Pairwise fun x y =>
    x.Details.OperationID ≠ "" → x.Details.OperationID ≠ y.Details.OperationID

instance (spec : OpenAPISpec) : Decidable (UniqueOperationIDs spec) :=
  inferInstanceAs (Decidable (List.Pairwise _ _))

/-- The operation `e` is placed in the group `g` under the identifier `opID`. -/
def PlacedIn (groups : GoMap (GoMap OpData)) (g opID : String) (e : OpData) : Prop :=
  ∃ opsMap, groups.get g = some opsMap ∧ opsMap.get opID = some e

/-- An operation with the given identifier and tags, and nothing else. -/
def taggedOperation (opID : String) (tags : List String) : OperationDetail :=
  { Tags := tags, Summary := "", OperationID := opID, Parameters := [],
    RequestBody := none, Responses := [], Security := [] }

/-- An API description with the operations `b`, `a`, `c` tagged `series` (`a`
also tagged `extra`), an operation `d` without tag and a tagged operation
without identifier. -/
def sampleSpec : OpenAPISpec :=
  { Paths :=
      [("/b", [("get", taggedOperation "b" ["series"])]),
       ("/a", [("get", taggedOperation "a" ["series", "extra"]),
               ("post", taggedOperation "d" [])]),
       ("/c", [("get", taggedOperation "c" ["series"]),
               ("put", taggedOperation "" ["series"])])],
    Security := [] }

/-- The group `series` of the sample description, in the order it was filled. -/
def sampleGroup : GoMap OpData :=
  [("b", { Details := taggedOperation "b" ["series"], Path := "/b", Method := "get" }),
   ("a", { Details := taggedOperation "a" ["series", "extra"], Path := "/a", Method := "get" }),
   ("c", { Details := taggedOperation "c" ["series"], Path := "/c", Method := "get" })]

/-! ## The wording of the specification, for the argument list and the resolver -/

/-- The test `v == nil` on a dynamically typed value. -/
def Value.isNull : Value → Bool
  | .null => true
  | _ => false

/-- The argument entry of one parameter as the specification words it: the name
unmodified, the type with the format in parentheses when there is one, the
required flag, the description, and as default the `%v` rendering of the declared
default, the empty string when none is declared. -/
def specArgument (p : Parameter) : ArgHelpGo :=
  { Name := p.Name
    Typ := p.Schema.Typ ++ (if p.Schema.Format ≠ "" then "(" ++ p.Schema.Format ++ ")" else "")
    Required := p.Required
    Description := p.Description
    Default := if p.Schema.Default.isNull then "" else sprintV p.Schema.Default }

/-- The fields of an argument entry, as a tuple. -/
def ArgHelpGo.fields (a : ArgHelpGo) : String × String × Bool × String × String :=
  (a.Name, a.Typ, a.Required, a.Description, a.Default)

/-- The schema `s` wrapped `k` times in an array descriptor without reference. -/
def nestArray : Nat → RefSchema → RefSchema
  | 0, s => s
  | k + 1, s => .mk "" "array" (.ptr (nestArray k s))

/-- The array marker `[]`, `k` times. -/
def arrayMarkers : Nat → String
  | 0 => ""
  | k + 1 => "[]" ++ arrayMarkers k

/-- Parameters with the defaults `asc`, `10`, `true` and none. -/
def defaultParameters : List Parameter :=
  [{ Name := "order_by", In := "query", Description := "Order", Required := false,
     Schema := { Typ := "string", Format := "", Default := .str "asc", Enum := [] } },
   { Name := "per_page", In := "query", Description := "Page size", Required := false,
     Schema := { Typ := "integer", Format := "int32", Default := .int 10, Enum := [] } },
   { Name := "pending", In := "query", Description := "", Required := false,
     Schema := { Typ := "boolean", Format := "", Default := .bool true, Enum := [] } },
   { Name := "id", In := "path", Description := "The id", Required := true,
     Schema := { Typ := "integer", Format := "int64", Default := .null, Enum := [] } }]

/-! ## The help renderer (`internal/utils/help.go`) -/

/-- The struct `ArgHelp`; `Typ` is the field `Type`. -/
structure ArgHelp where
  Name : String
  Typ : String
  Required : Bool
  Description : String
  Default : String

/-- The struct `HelpContent`. -/
structure HelpContent where
  Usage : String
  Description : String
  Arguments : List ArgHelp
  InputJSON : Value
  OutputJSON : Value
  ErrorExamples : Value
  AuthRequired : Bool

/-- The verb `%T` on a dynamically typed value: the name of its Go type. -/
def typeName : Value → String
  | .null => "<nil>"
  | .str _ => "string"
  | .int _ => "int"
  | .bool _ => "bool"
  | .float _ => "float64"
  | .seq _ => "[]interface \x7b\x7d"
  | .map _ => "map[string]interface \x7b\x7d"

/-- The type assertion `v.(map[string]interface{})` succeeds. -/
def Value.isMap : Value → Bool
  | .map _ => true
  | _ => false

/-- The largest value of a Go `int` (64 bits). -/
def maxInt : Int := 9223372036854775807

/-- The smallest value of a Go `int` (64 bits). -/
def minInt : Int := -9223372036854775808

/-- The Go expression `level + 1` on an `int`: it wraps from the largest value to
the smallest. -/
def incInt (level : Int) : Int :=
  if level = maxInt then minInt else level + 1

mutual
/-- The function `processSchemaForHelp` (the depth limiter). `level` and
`maxLevel` are Go `int`s; `level + 1` is `incInt level`. -/
def processSchemaForHelp : Value → Int → Int → Value
  | schema, level, maxLevel =>
    if level > maxLevel then .str ("<Nested data: L" ++ toString level ++ "+>")
    else
      match schema with
      | .str s => .str s
      | .map m => .map (processEntries m level maxLevel)
      | other => other
/-- The loop over the entries of a mapping that fills `simplified`: a mapping
value is limited at `level + 1`, a sequence value goes to `processSubArray`, any
other value is replaced by the marker of its type. -/
def processEntries : List (String × Value) → Int → Int → List (String × Value)
  | [], _, _ => []
  | (k, v) :: rest, level, maxLevel =>
    (k, if v.isMap then processSchemaForHelp v (incInt level) maxLevel
        else
          match v with
          | .seq subArray => processSubArray subArray level maxLevel
          | other => .str ("<" ++ typeName other ++ ">")) :: processEntries rest level maxLevel
/-- The value stored for a sequence value `subArray`: when it is not empty, the
one-element sequence of its first element limited at `level + 1`; when it is
empty, the marker of its type. -/
def processSubArray : List Value → Int → Int → Value
  | [], _, _ => .str ("<" ++ typeName (.seq []) ++ ">")
  | first :: _, level, maxLevel => .seq [processSchemaForHelp first (incInt level) maxLevel]
end

mutual
/-- The depth of nesting of the mappings of a value: a mapping counts one level
above its deepest value, a sequence counts as its deepest element. -/
def mapDepth : Value → Nat
  | .map kvs => 1 + mapDepthEntries kvs
  | .seq xs => mapDepthList xs
  | _ => 0
/-- The largest `mapDepth` among the elements of a sequence. -/
def mapDepthList : List Value → Nat
  | [] => 0
  | x :: xs => max (mapDepth x) (mapDepthList xs)
/-- The largest `mapDepth` among the values of the entries of a mapping. -/
def mapDepthEntries : List (String × Value) → Nat
  | [] => 0
  | (_, v) :: rest => max (mapDepth v) (mapDepthEntries rest)
end

mutual
/-- The sequences that the limiter returns unchanged are shallow enough: every
sequence that the limiter, run on this value at `level`, meets as a node at some
level `l ≤ maxLevel` (the value itself, or the first element of a sequence value
of a mapping it expands) has mappings nested at most `maxLevel - l + 1` deep. -/
def seqsWithinBound : Value → Int → Int → Bool
  | v, level, maxLevel =>
    if level > maxLevel then true
    else
      match v with
      | .seq xs => decide ((mapDepthList xs : Int) ≤ maxLevel - level + 1)
      | .map kvs => seqsWithinBoundEntries kvs level maxLevel
      | _ => true
/-- The test `seqsWithinBound` on the nodes reached from the entries of a mapping
expanded at `level`. -/
def seqsWithinBoundEntries : List (String × Value) → Int → Int → Bool
  | [], _, _ => true
  | (_, v) :: rest, level, maxLevel =>
    (if v.isMap then seqsWithinBound v (incInt level) maxLevel
      else
        match v with
        | .seq subArray => seqsWithinBoundFirst subArray level maxLevel
        | _ => true) && seqsWithinBoundEntries rest level maxLevel
/-- The test `seqsWithinBound` on the first element of a sequence value. -/
def seqsWithinBoundFirst : List Value → Int → Int → Bool
  | [], _, _ => true
  | first :: _, level, maxLevel => seqsWithinBound first (incInt level) maxLevel
end

mutual
/-- The depth of the mappings that the limiter reaches when no level is above
`maxLevel`: a mapping counts one level above the deepest of its mapping values
and of the first elements of its sequence values; a sequence met as a node counts
with all it holds. -/
def reachDepth : Value → Nat
  | .map kvs => 1 + reachDepthEntries kvs
  | .seq xs => mapDepthList xs
  | _ => 0
/-- The largest `reachDepth` among the nodes reached from the entries of a
mapping. -/
def reachDepthEntries : List (String × Value) → Nat
  | [] => 0
  | (_, v) :: rest =>
    max (if v.isMap then reachDepth v
      else
        match v with
        | .seq subArray => reachDepthFirst subArray
        | _ => 0) (reachDepthEntries rest)
/-- The `reachDepth` of the first element of a sequence value. -/
def reachDepthFirst : List Value → Nat
  | [] => 0
  | first :: _ => reachDepth first
end

/-- A mapping of a mapping of a mapping. -/
def threeMappings : Value :=
  .map [("a", .map [("b", .map [("c", .str "x")])])]

/-- A sequence that holds a mapping of a mapping of a mapping. -/
def sequenceOfMappings : Value :=
  .seq [threeMappings]

/-- A mapping whose value under `k` is a sequence that holds a sequence. -/
def sequenceInSequence : Value :=
  .map [("k", .seq [sequenceOfMappings])]

/-- The map `argsInfo[i]` built for one argument: the four fixed keys, and the
key `default` when the default string is not empty. -/
def argInfo (arg : ArgHelp) : GoMap Value :=
  let info : GoMap Value :=
    [("name", .str arg.Name), ("type", .str arg.Typ), ("required", .bool arg.Required),
     ("description", .str arg.Description)]
  if arg.Default ≠ "" then info.set "default" (.str arg.Default) else info

/-- The map `output` that `PrintJSONHelp` builds and hands to `json.MarshalIndent`
(the structured help document). -/
def jsonHelpOutput (hc : HelpContent) : GoMap Value :=
  let output : GoMap Value := []
  let output := output.set "description" (.str hc.Description)
  let output := output.set "usage" (.str hc.Usage)
  let output := output.set "authentication_required" (.bool hc.AuthRequired)
  let argsInfo := hc.Arguments.map argInfo
  let output :=
    if argsInfo.length > 0 then output.set "arguments" (.seq (argsInfo.map Value.map))
    else output.set "arguments" (.str "None")
  let output := output.set "expected_input_schema" (processSchemaForHelp hc.InputJSON 1 1)
  let output := output.set "expected_output_schema" (processSchemaForHelp hc.OutputJSON 1 1)
  output.set "error_examples" hc.ErrorExamples

/-- The three named results of `CheckHelpFlags`. -/
structure HelpFlags where
  showJSONHelp : Bool
  showTextHelp : Bool
  remainingArgs : List String

/-- One iteration of the loop of `CheckHelpFlags` over the arguments. -/
def checkHelpFlagsBody (st : HelpFlags) (arg : String) : HelpFlags :=
  if arg = "-h" then { st with showJSONHelp := true }
  else if arg = "-hh" then { st with showTextHelp := true }
  else { st with remainingArgs := st.remainingArgs ++ [arg] }

/-- The function `CheckHelpFlags`: the loop from the zero values of the results,
then `-hh` overrides `-h`. -/
def CheckHelpFlags (args : List String) : HelpFlags :=
  let st := args.foldl checkHelpFlagsBody
    { showJSONHelp := false, showTextHelp := false, remainingArgs := [] }
  if st.showTextHelp then { st with showJSONHelp := false } else st

/-- A help record with the two arguments `id` (no default) and `order` (default
`asc`). -/
def sampleHelpContent : HelpContent :=
  { Usage := "mangaupdatescli series op --id <integer> [--order <string>]",
    Description := "An operation",
    Arguments :=
      [{ Name := "id", Typ := "integer", Required := true, Description := "The id",
         Default := "" },
       { Name := "order", Typ := "string", Required := false, Description := "Order",
         Default := "asc" }],
    InputJSON := .str "Path/Query Parameters",
    OutputJSON := .str "Schema (on 200): <Foo:L1>",
    ErrorExamples := .map [("404", .str "Not found")],
    AuthRequired := false }

/-- A request body that is required and has no content-type map. -/
def bodyWithoutContent : RequestBody :=
  { Description := "", Required := true, Content := none }

/-- A request body that is required and offered as plain text only. -/
def textBody : RequestBody :=
  { Description := "", Required := true,
    Content := some [("text/plain", { Schema := .mk "" "string" .nil })] }

/-! ## Sample inputs for the order of content types and for the mapping case -/

/-- A content-type map with `text/plain` and `text/csv`, enumerated in that order. -/
def twoTextTypes : GoMap MediaType :=
  [("text/plain", { Schema := .mk "" "string" .nil }),
   ("text/csv", { Schema := .mk "" "string" .nil })]

/-- The same content-type map, enumerated as `text/csv`, `text/plain`. -/
def twoTextTypesReordered : GoMap MediaType :=
  [("text/csv", { Schema := .mk "" "string" .nil }),
   ("text/plain", { Schema := .mk "" "string" .nil })]

/-- An operation whose only response is a `200` with the given content-type map. -/
def operationWithContent (content : GoMap MediaType) : OperationDetail :=
  { bareOperation with
    Responses := [("200", { Description := "OK", Content := some content })] }

/-- The entries of a mapping with a mapping, a sequence of two elements, an empty
sequence, a string and a null as values. -/
def mixedEntries : GoMap Value :=
  [("a", .map [("x", .int 1)]), ("b", .seq [.str "s", .map [("y", .map [])]]),
   ("c", .seq []), ("d", .str "t"), ("e", .null)]

/-- A help record whose two summaries are the strings the generator builds for
the responses `200` with JSON schema `Foo` and `404`, and for no request body. -/
def generatedHelpContent : HelpContent :=
  { sampleHelpContent with
    InputJSON := .str (buildHelpGenData (fun _ => true) [] "series" "op"
      { bareOperation with Responses := fooResponses }).InputJSON
    OutputJSON := .str (buildHelpGenData (fun _ => true) [] "series" "op"
      { bareOperation with Responses := fooResponses }).OutputJSON }

/-! ## Lemmas on the library functions -/

theorem replaceAllChars_eq_map (old new : Char) (cs : List Char) :
    replaceAllChars old new cs = cs.map (fun c => if c = old then new else c) := by
  induction cs with
  | nil => rfl
  | cons c cs ih => simp [replaceAllChars, ih]

theorem intercalate_go_eq (sep : String) (l : List String) (acc : String) :
    String.intercalate.go acc sep l =
      acc ++ (match l with
        | [] => ""
        | _ :: _ => sep ++ join l sep) := by
  induction l generalizing acc with
  | nil => simp [String.intercalate.go]
  | cons a as ih =>
    cases as with
    | nil => simp [String.intercalate.go, join, String.append_assoc]
    | cons b bs =>
      rw [String.intercalate.go, ih]
      simp [join, String.append_assoc]

theorem join_eq_intercalate (l : List String) (sep : String) :
    join l sep = sep.intercalate l := by
  cases l with
  | nil => rfl
  | cons a as =>
    cases as with
    | nil => simp [String.intercalate, String.intercalate.go, join]
    | cons b bs => simp [String.intercalate, intercalate_go_eq, join, String.append_assoc]

/-! ## Lemmas on maps -/

theorem GoMap.get_of_mem {V : Type} (m : GoMap V) (k : String) (v : V)
    (hwf : m.WellFormed) (hmem : (k, v) ∈ m) : m.get k = some v := by
  induction m with
  | nil => simp at hmem
  | cons e m ih =>
    obtain ⟨k', v'⟩ := e
    simp only [GoMap.WellFormed, GoMap.keys, List.map_cons, List.nodup_cons] at hwf
    simp only [List.mem_cons, Prod.mk.injEq] at hmem
    rcases hmem with ⟨hk, hv⟩ | hmem
    · subst hk hv
      simp [GoMap.get, List.lookup]
    · have hne : k ≠ k' := by
        rintro rfl
        exact hwf.1 (List.mem_map_of_mem Prod.fst hmem)
      have hbeq : (k == k') = false := by simpa using hne
      have := ih hwf.2 hmem
      simp only [GoMap.get] at this ⊢
      rw [List.lookup_cons, hbeq]
      exact this

theorem GoMap.get_eq_none_iff {V : Type} (m : GoMap V) (k : String) :
    m.get k = none ↔ k ∉ m.keys := by
  induction m with
  | nil => simp [GoMap.get, GoMap.keys]
  | cons e m ih =>
    obtain ⟨k', v'⟩ := e
    simp only [GoMap.get, GoMap.keys] at ih ⊢
    rw [List.lookup_cons]
    by_cases h : k = k'
    · subst h; simp
    · have h' : ¬ k' = k := fun e => h e.symm
      have hbeq : (k == k') = false := by simpa using h
      rw [hbeq]
      simp only [List.map_cons, List.mem_cons, not_or]
      rw [ih]
      exact ⟨fun hm => ⟨h, hm⟩, fun hm => hm.2⟩

theorem GoMap.get_isSome_iff {V : Type} (m : GoMap V) (k : String) :
    (m.get k).isSome = true ↔ k ∈ m.keys := by
  rw [← not_iff_not, ← GoMap.get_eq_none_iff]
  cases m.get k <;> simp

theorem GoMap.exists_get_of_mem_keys {V : Type} (m : GoMap V) (k : String)
    (h : k ∈ m.keys) : ∃ v, m.get k = some v := by
  have := (GoMap.get_isSome_iff m k).2 h
  exact Option.isSome_iff_exists.1 this

/-! ## Lemmas on the success status -/

theorem find?_first {α : Type} (p : α → Bool) (pre post : List α) (c : α)
    (hpre : ∀ x ∈ pre, p x = false) (hc : p c = true) :
    (pre ++ c :: post).find? p = some c := by
  induction pre with
  | nil => simp [List.find?, hc]
  | cons x xs ih =>
    have hx : p x = false := hpre x (by simp)
    simp only [List.cons_append, List.find?, hx]
    exact ih (fun y hy => hpre y (by simp [hy]))

theorem successStatusCode_eq (responses : GoMap Response) (pre post : List String)
    (code : String) (hsplit : ["200", "201", "202", "204"] = pre ++ code :: post)
    (hpre : ∀ c ∈ pre, c ∉ responses.keys) (hkey : code ∈ responses.keys) :
    successStatusCode responses = code := by
  have hp : ∀ c ∈ pre, (responses.get c).isSome = false := by
    intro c hc
    have := (GoMap.get_eq_none_iff responses c).2 (hpre c hc)
    simp [this]
  have hcode : (responses.get code).isSome = true := (GoMap.get_isSome_iff responses code).2 hkey
  have hfind := find?_first (fun c => (responses.get c).isSome) pre post code hp hcode
  unfold successStatusCode successStatusCodes
  rw [hsplit, hfind]
  rfl

theorem successCode_ne_empty (pre post : List String) (code : String)
    (hsplit : ["200", "201", "202", "204"] = pre ++ code :: post) : code ≠ "" := by
  have hmem : code ∈ ["200", "201", "202", "204"] := by rw [hsplit]; simp
  simp only [List.mem_cons, List.mem_singleton, List.not_mem_nil, or_false] at hmem
  rcases hmem with rfl | rfl | rfl | rfl <;> decide

theorem OutputJSON_of_selected (responses : GoMap Response) (pre post : List String)
    (code : String) (resp : Response)
    (hsplit : ["200", "201", "202", "204"] = pre ++ code :: post)
    (hwf : responses.WellFormed) (hpre : ∀ c ∈ pre, c ∉ responses.keys)
    (hmem : (code, resp) ∈ responses) :
    OutputJSON responses = successSummary code resp := by
  have hkey : code ∈ responses.keys := List.mem_map_of_mem Prod.fst hmem
  have hsel := successStatusCode_eq responses pre post code hsplit hpre hkey
  have hne := successCode_ne_empty pre post code hsplit
  have hget := GoMap.get_of_mem responses code resp hwf hmem
  simp [OutputJSON, hsel, hne, hget]

/-! ## Lemmas on the error map -/

theorem GoMap.set_of_not_mem {V : Type} (m : GoMap V) (k : String) (v : V)
    (h : k ∉ m.keys) : m.set k v = m ++ [(k, v)] := by
  induction m with
  | nil => rfl
  | cons e m ih =>
    obtain ⟨k', v'⟩ := e
    simp only [GoMap.keys, List.map_cons, List.mem_cons, not_or] at h
    have hne : ¬ k' = k := fun e => h.1 e.symm
    simp only [GoMap.set, hne, if_false, List.cons_append]
    rw [ih h.2]

theorem GoMap.mem_keys_set {V : Type} (m : GoMap V) (k k' : String) (v : V) :
    k' ∈ (m.set k v).keys ↔ k' = k ∨ k' ∈ m.keys := by
  induction m with
  | nil => simp [GoMap.set, GoMap.keys]
  | cons e m ih =>
    obtain ⟨k₀, v₀⟩ := e
    by_cases h : k₀ = k
    · subst h
      simp [GoMap.set, GoMap.keys]
    · simp only [GoMap.set, h, if_false]
      simp only [GoMap.keys, List.map_cons, List.mem_cons] at ih ⊢
      rw [ih]
      tauto

theorem GoMap.set_ne_nil {V : Type} (m : GoMap V) (k : String) (v : V) : m.set k v ≠ [] := by
  cases m with
  | nil => simp [GoMap.set]
  | cons e m =>
    obtain ⟨k₀, v₀⟩ := e
    by_cases h : k₀ = k <;> simp [GoMap.set, h]

theorem foldl_errorLoopBody_keys (rs : GoMap Response) (acc : GoMap String) (k : String)
    (hk : k ∈ (rs.foldl errorLoopBody acc).keys) :
    k ∈ acc.keys ∨ (k ∈ rs.keys ∧ isErrorCode k = true) := by
  induction rs generalizing acc with
  | nil => exact Or.inl hk
  | cons e rs ih =>
    rcases ih _ hk with h | h
    · by_cases he : isErrorCode e.1 = true
      · simp only [errorLoopBody, he, if_true] at h
        rcases (GoMap.mem_keys_set acc e.1 k _).1 h with h' | h'
        · right
          subst h'
          exact ⟨by simp [GoMap.keys], he⟩
        · exact Or.inl h'
      · simp only [errorLoopBody, he] at h
        exact Or.inl h
    · right
      exact ⟨by simp only [GoMap.keys, List.map_cons, List.mem_cons]; exact Or.inr h.1, h.2⟩

theorem foldl_errorLoopBody_ne_nil (rs : GoMap Response) (acc : GoMap String)
    (h : acc ≠ [] ∨ ∃ k ∈ rs.keys, isErrorCode k = true) :
    rs.foldl errorLoopBody acc ≠ [] := by
  induction rs generalizing acc with
  | nil =>
    rcases h with h | ⟨k, hk, _⟩
    · exact h
    · simp [GoMap.keys] at hk
  | cons e rs ih =>
    simp only [List.foldl_cons]
    apply ih
    by_cases he : isErrorCode e.1 = true
    · left
      simp only [errorLoopBody, he, if_true]
      exact GoMap.set_ne_nil _ _ _
    · rcases h with h | ⟨k, hk, hke⟩
      · left
        simpa only [errorLoopBody, he] using h
      · right
        simp only [GoMap.keys, List.map_cons, List.mem_cons] at hk
        rcases hk with hk | hk
        · subst hk
          exact absurd hke he
        · exact ⟨k, hk, hke⟩

theorem foldl_errorLoopBody_of_no_error (rs : GoMap Response) (acc : GoMap String)
    (h : ∀ k ∈ rs.keys, isErrorCode k = false) : rs.foldl errorLoopBody acc = acc := by
  induction rs generalizing acc with
  | nil => rfl
  | cons e rs ih =>
    have he : isErrorCode e.1 = false := h e.1 (by simp [GoMap.keys])
    simp only [List.foldl_cons, errorLoopBody, he]
    exact ih acc (fun k hk => h k (by
      simp only [GoMap.keys, List.map_cons, List.mem_cons]; exact Or.inr hk))

theorem foldl_errorLoopBody_closed (rs : GoMap Response) (acc : GoMap String)
    (hwf : rs.WellFormed) (hdisj : ∀ k ∈ rs.keys, k ∉ acc.keys) :
    rs.foldl errorLoopBody acc =
      acc ++ (rs.filter (fun e => isErrorCode e.1)).map (fun e => (e.1, errorMessage e.2)) := by
  induction rs generalizing acc with
  | nil => simp
  | cons e rs ih =>
    simp only [GoMap.WellFormed, GoMap.keys, List.map_cons, List.nodup_cons] at hwf
    have hrest : ∀ k ∈ GoMap.keys rs, k ∉ acc.keys := fun k hk =>
      hdisj k (by simp only [GoMap.keys, List.map_cons, List.mem_cons]; exact Or.inr hk)
    simp only [List.foldl_cons]
    by_cases he : isErrorCode e.1 = true
    · have hnew : e.1 ∉ acc.keys := hdisj e.1 (by simp [GoMap.keys])
      simp only [errorLoopBody, he, if_true, GoMap.set_of_not_mem acc e.1 _ hnew]
      rw [ih _ hwf.2]
      · simp [List.filter_cons, he]
      · intro k hk hmem
        simp only [GoMap.keys, List.map_append, List.map_cons, List.map_nil, List.mem_append,
          List.mem_singleton] at hmem
        rcases hmem with hmem | hmem
        · exact hrest k hk hmem
        · subst hmem
          exact hwf.1 hk
    · have he' : isErrorCode e.1 = false := by simpa using he
      simp only [errorLoopBody, he', Bool.false_eq_true, if_false]
      rw [ih _ hwf.2 hrest]
      simp [List.filter_cons, he']

theorem errorMap_closed (rs : GoMap Response) (hwf : rs.WellFormed) :
    errorMap rs =
      (rs.filter (fun e => isErrorCode e.1)).map (fun e => (e.1, errorMessage e.2)) := by
  have := foldl_errorLoopBody_closed rs [] hwf (fun k _ h => by simp [GoMap.keys] at h)
  simpa [errorMap] using this

theorem errorMap_wellFormed (rs : GoMap Response) (hwf : rs.WellFormed) :
    (errorMap rs).WellFormed := by
  rw [errorMap_closed rs hwf]
  have hsub : (GoMap.keys ((rs.filter (fun e => isErrorCode e.1)).map
      (fun e => (e.1, errorMessage e.2)))).Sublist (GoMap.keys rs) := by
    simp only [GoMap.keys, List.map_map]
    exact (List.filter_sublist rs).map Prod.fst
  exact hsub.nodup hwf

theorem errorMap_mem_keys (rs : GoMap Response) (k : String) :
    k ∈ (errorMap rs).keys ↔ (k ∈ rs.keys ∧ isErrorCode k = true) := by
  constructor
  · intro hk
    rcases foldl_errorLoopBody_keys rs [] k hk with h | h
    · simp [GoMap.keys] at h
    · exact h
  · rintro ⟨hk, he⟩
    induction rs using List.reverseRecOn with
    | nil => simp [GoMap.keys] at hk
    | append_singleton rs e ih =>
      simp only [errorMap, List.foldl_append, List.foldl_cons, List.foldl_nil] at ih ⊢
      simp only [GoMap.keys, List.map_append, List.map_cons, List.map_nil, List.mem_append,
        List.mem_singleton] at hk
      by_cases hee : isErrorCode e.1 = true
      · simp only [errorLoopBody, hee, if_true]
        rw [GoMap.mem_keys_set]
        rcases hk with hk | hk
        · exact Or.inr (ih hk)
        · exact Or.inl hk
      · simp only [errorLoopBody, hee]
        rcases hk with hk | hk
        · exact ih hk
        · subst hk
          exact absurd he hee

theorem errorMap_get (rs : GoMap Response) (hwf : rs.WellFormed) (code : String)
    (resp : Response) (hmem : (code, resp) ∈ rs) (herr : isErrorCode code = true) :
    (errorMap rs).get code = some (errorMessage resp) := by
  apply GoMap.get_of_mem _ _ _ (errorMap_wellFormed rs hwf)
  rw [errorMap_closed rs hwf]
  simp only [List.mem_map, List.mem_filter]
  exact ⟨(code, resp), ⟨hmem, herr⟩, rfl⟩

theorem errorSchemaName_of_no_json (resp : Response)
    (h : resp.Content = none ∨
      ∃ content, resp.Content = some content ∧ "application/json" ∉ GoMap.keys content) :
    errorSchemaName resp = "" := by
  rcases h with h | ⟨content, hc, hj⟩
  · simp [errorSchemaName, h]
  · have := (GoMap.get_eq_none_iff content "application/json").2 hj
    simp [errorSchemaName, hc, this]

theorem errorSchemaName_of_json (resp : Response) (content : GoMap MediaType)
    (contentJSON : MediaType) (hc : resp.Content = some content) (hwf : content.WellFormed)
    (hj : ("application/json", contentJSON) ∈ content) :
    errorSchemaName resp = getSchemaRefName (.ptr contentJSON.Schema) := by
  have := GoMap.get_of_mem content "application/json" contentJSON hwf hj
  simp [errorSchemaName, hc, this]

/-! ## Lemmas on sorting and on the serialization -/

theorem strLess_iff (a b : String) : strLess a b = true ↔ a < b := by
  rw [String.lt_iff_toList_lt]
  simp [strLess, String.toList]

theorem insertSorted_eq_orderedInsert (a : String) (l : List String) :
    insertSorted a l = List.orderedInsert (· ≤ ·) a l := by
  induction l with
  | nil => rfl
  | cons b bs ih =>
    by_cases h : b < a
    · have h1 : strLess b a = true := (strLess_iff b a).2 h
      have h2 : ¬ a ≤ b := not_le.2 h
      simp [insertSorted, List.orderedInsert, h1, h2, ih]
    · have h1 : strLess b a = false := by
        cases hs : strLess b a
        · rfl
        · exact absurd ((strLess_iff b a).1 hs) h
      have h2 : a ≤ b := not_lt.1 h
      simp [insertSorted, List.orderedInsert, h1, h2]

theorem sortStrings_eq_insertionSort (l : List String) :
    sortStrings l = l.insertionSort (· ≤ ·) := by
  induction l with
  | nil => rfl
  | cons a as ih => simp [sortStrings, List.insertionSort, ih, insertSorted_eq_orderedInsert]

theorem sortStrings_perm (l : List String) : (sortStrings l).Perm l := by
  rw [sortStrings_eq_insertionSort]
  exact List.perm_insertionSort _ l

theorem sortStrings_sorted (l : List String) : (sortStrings l).Sorted (· ≤ ·) := by
  rw [sortStrings_eq_insertionSort]
  exact List.sorted_insertionSort _ l

theorem sortStrings_eq_of_perm (l l' : List String) (h : l.Perm l') :
    sortStrings l = sortStrings l' :=
  List.eq_of_perm_of_sorted (((sortStrings_perm l).trans h).trans (sortStrings_perm l').symm)
    (sortStrings_sorted l) (sortStrings_sorted l')

theorem writeEntries_eq_join (tbl : Char → Bool) (m : GoMap String) (ks : List String) :
    writeEntries tbl m ks =
      join (ks.map fun k => quote tbl k ++ ": " ++ quote tbl ((m.get k).getD "")) ", " := by
  induction ks with
  | nil => rfl
  | cons k ks ih =>
    cases ks with
    | nil => rfl
    | cons k' ks =>
      rw [writeEntries, ih]
      rfl

theorem appendEscapedRune_digit (tbl : Char → Bool) (c : Char) (hc : c = '4' ∨ c = '5') :
    appendEscapedRune tbl c = [c] := by
  rcases hc with rfl | rfl <;> rfl

theorem quote_data_of_error (tbl : Char → Bool) (k : String) (h : isErrorCode k = true) :
    ∃ c rest, (c = '4' ∨ c = '5') ∧ (quote tbl k).data = Char.ofNat 0x22 :: c :: rest := by
  have hpre : ∃ c tl, (c = '4' ∨ c = '5') ∧ k.data = c :: tl := by
    simp only [isErrorCode, hasPrefix, Bool.or_eq_true, List.isPrefixOf_iff_prefix] at h
    rcases h with ⟨tl, htl⟩ | ⟨tl, htl⟩
    · exact ⟨'4', tl, Or.inl rfl, htl.symm⟩
    · exact ⟨'5', tl, Or.inr rfl, htl.symm⟩
  obtain ⟨c, tl, hc, hk⟩ := hpre
  refine ⟨c, escapeChars tbl tl ++ [Char.ofNat 0x22], hc, ?_⟩
  simp [quote, hk, escapeChars, appendEscapedRune_digit tbl c hc]

theorem writeEntries_cons_data (tbl : Char → Bool) (m : GoMap String) (k : String)
    (ks : List String) :
    ∃ rest, (writeEntries tbl m (k :: ks)).data = (quote tbl k).data ++ rest := by
  cases ks with
  | nil =>
    refine ⟨(": " ++ quote tbl ((m.get k).getD "")).data, ?_⟩
    simp only [writeEntries, String.data_append, List.append_assoc]
  | cons k' ks =>
    refine ⟨(": " ++ quote tbl ((m.get k).getD "") ++ ", " ++
      writeEntries tbl m (k' :: ks)).data, ?_⟩
    simp only [writeEntries, String.data_append, List.append_assoc]

theorem literal_ne_generic (c : Char) (rest : List Char) (hc : c = '4' ∨ c = '5')
    (body : String) (hbody : body.data = Char.ofNat 0x22 :: c :: rest) :
    "map[string]string\x7b" ++ body ++ "\x7d" ≠
      "map[string]string\x7b\"Generic\": \"Standard API errors.\"\x7d" := by
  intro h
  have h2 := congrArg String.data h
  simp only [String.data_append, hbody] at h2
  have h3 := congrArg (fun l => l.get? 19) h2
  simp at h3
  rcases hc with rfl | rfl <;> simp at h3

theorem errorExample_ne_generic (tbl : Char → Bool) (rs : GoMap Response)
    (hne : errorMap rs ≠ []) :
    ErrorExample tbl rs ≠ "map[string]string\x7b\"Generic\": \"Standard API errors.\"\x7d" := by
  have hlen : (errorMap rs).length > 0 := List.length_pos.2 hne
  have hperm := sortStrings_perm (errorMap rs).keys
  cases hks : errorKeys rs with
  | nil =>
    rw [errorKeys] at hks
    rw [hks] at hperm
    have := hperm.length_eq
    simp only [GoMap.keys, List.length_nil, List.length_map] at this
    omega
  | cons k ks =>
    have hk : k ∈ (errorMap rs).keys := by
      apply hperm.subset
      rw [← errorKeys, hks]
      simp
    have hke := ((errorMap_mem_keys rs k).1 hk).2
    obtain ⟨c, rest, hc, hq⟩ := quote_data_of_error tbl k hke
    obtain ⟨rest', hw⟩ := writeEntries_cons_data tbl (errorMap rs) k ks
    simp only [ErrorExample, hlen, if_true, hks]
    exact literal_ne_generic c (rest ++ rest') hc _ (by rw [hw, hq]; rfl)

theorem GoMap.mem_of_get {V : Type} (m : GoMap V) (k : String) (v : V)
    (h : m.get k = some v) : (k, v) ∈ m := by
  induction m with
  | nil => simp [GoMap.get] at h
  | cons e m ih =>
    obtain ⟨k', v'⟩ := e
    simp only [GoMap.get] at h ih
    rw [List.lookup_cons] at h
    by_cases hk : k = k'
    · subst hk
      simp only [beq_self_eq_true, Option.some.injEq] at h
      subst h
      simp
    · have hbeq : (k == k') = false := by simpa using hk
      rw [hbeq] at h
      exact List.mem_cons_of_mem _ (ih h)

theorem GoMap.get_eq_of_perm {V : Type} (m m' : GoMap V) (h : m.Perm m')
    (hwf : m.WellFormed) (k : String) : m.get k = m'.get k := by
  have hkeys : (GoMap.keys m).Perm (GoMap.keys m') := h.map Prod.fst
  have hwf' : m'.WellFormed := (hkeys.nodup_iff).1 hwf
  cases hg : m'.get k with
  | none =>
    rw [GoMap.get_eq_none_iff] at hg ⊢
    exact fun hk => hg (hkeys.subset hk)
  | some v =>
    exact GoMap.get_of_mem m k v hwf (h.symm.subset (GoMap.mem_of_get m' k v hg))

theorem errorMap_perm (rs rs' : GoMap Response) (h : rs'.Perm rs) (hwf : rs.WellFormed) :
    (errorMap rs').Perm (errorMap rs) := by
  have hwf' : rs'.WellFormed := ((h.map Prod.fst).nodup_iff).2 hwf
  rw [errorMap_closed rs hwf, errorMap_closed rs' hwf']
  exact (h.filter _).map _

theorem errorExample_eq_of_perm (tbl : Char → Bool) (rs rs' : GoMap Response)
    (h : rs'.Perm rs) (hwf : rs.WellFormed) : ErrorExample tbl rs' = ErrorExample tbl rs := by
  have hwf' : rs'.WellFormed := ((h.map Prod.fst).nodup_iff).2 hwf
  have hperm := errorMap_perm rs rs' h hwf
  have hkeys : errorKeys rs' = errorKeys rs :=
    sortStrings_eq_of_perm _ _ (hperm.map Prod.fst)
  have hget : ∀ k, (errorMap rs').get k = (errorMap rs).get k :=
    GoMap.get_eq_of_perm _ _ hperm (errorMap_wellFormed rs' hwf')
  simp only [ErrorExample, hperm.length_eq, writeEntries_eq_join, hkeys, hget]

/-! ## Lemmas on the parameter loop -/

theorem foldl_paramLoopBody_usageParts (params : List Parameter) (st : ParamLoopState) :
    (params.foldl paramLoopBody st).usageParts = st.usageParts ++ params.map usageParamStr := by
  induction params generalizing st with
  | nil => simp
  | cons p ps ih => simp [ih, paramLoopBody]

theorem foldl_paramLoopBody_length (params : List Parameter) (st : ParamLoopState) :
    (params.foldl paramLoopBody st).Arguments.length = st.Arguments.length + params.length := by
  induction params generalizing st with
  | nil => simp
  | cons p ps ih => simp [ih, paramLoopBody]; omega

theorem usageParamStr_eq_spec (p : Parameter) : usageParamStr p = specParamToken p := by
  unfold usageParamStr specParamToken paramTypeStr replaceAll
  rw [replaceAllChars_eq_map]
  by_cases hf : p.Schema.Format = "" <;> cases hr : p.Required <;>
    simp [hf, String.append_assoc]

/-! ## The claims -/

/-- C1: the authentication flag of the record is true exactly when the operation
has a non-empty security list of its own, or has an empty one while the
catalog-wide default list is non-empty; in particular it is false when both lists
are empty. -/
theorem C1_auth_flag_or_with_inheritance (tbl : Char → Bool)
    (specSecurity : List (GoMap (List String))) (spName opID : String)
    (details : OperationDetail) :
    ((buildHelpGenData tbl specSecurity spName opID details).AuthRequired = true ↔
        (details.Security ≠ [] ∨ (details.Security = [] ∧ specSecurity ≠ []))) ∧
      ((buildHelpGenData tbl specSecurity spName opID details).AuthRequired = false ↔
        (details.Security = [] ∧ specSecurity = [])) := by
  cases hs : details.Security <;> cases hg : specSecurity <;>
    simp [buildHelpGenData, authRequired, hs]

/-- C2: the usage line of the record is the program name, the subprogram and the
operation identifier followed by one token per parameter in declared order, joined
by single spaces, each token being `--name <type(format)>` with `_` turned into `-`
and bracketed exactly when the parameter is optional; the marker
` [REQUIRES AUTH]` is appended exactly when the authentication flag of the record
is set. A required parameter followed by an optional one with default `asc` gives
a line where only the second token is bracketed. -/
theorem C2_usage_line (tbl : Char → Bool) (specSecurity : List (GoMap (List String)))
    (spName opID : String) (details : OperationDetail) :
    (buildHelpGenData tbl specSecurity spName opID details).Usage =
        specUsage spName opID details.Parameters
          (buildHelpGenData tbl specSecurity spName opID details).AuthRequired ∧
      (buildHelpGenData (fun _ => true) [] "series" "search_series"
          { Tags := ["series"], Summary := "", OperationID := "search_series",
            Parameters :=
              [{ Name := "search_term", In := "query", Description := "", Required := true,
                 Schema := { Typ := "string", Format := "", Default := .null, Enum := [] } },
               { Name := "order_by", In := "query", Description := "", Required := false,
                 Schema := { Typ := "integer", Format := "int32", Default := .str "asc",
                             Enum := [] } }],
            RequestBody := none, Responses := [], Security := [[]] }).Usage =
        "mangaupdatescli series search_series --search-term <string> [--order-by <integer(int32)>] [REQUIRES AUTH]" := by
  refine ⟨?_, by decide⟩
  simp only [buildHelpGenData, Usage, specUsage, paramLoop, foldl_paramLoopBody_usageParts,
    join_eq_intercalate]
  have hmap : details.Parameters.map usageParamStr = details.Parameters.map specParamToken :=
    List.map_congr_left (fun p _ => usageParamStr_eq_spec p)
  rw [hmap]
  cases authRequired details.Security specSecurity <;> simp

/-- C3: when the content-type map of the request body has an entry for
`application/json`, whatever else it has, the input-shape summary is
`Request Body Schema: <N:L1>` with `N` the resolved label of that JSON schema,
followed by ` (required)` exactly when the body is required. -/
theorem C3_input_json_request_body (tbl : Char → Bool)
    (specSecurity : List (GoMap (List String))) (spName opID : String)
    (details : OperationDetail) (rb : RequestBody) (content : GoMap MediaType)
    (rbJSON : MediaType) (hbody : details.RequestBody = some rb)
    (hcontent : rb.Content = some content) (hwf : content.WellFormed)
    (hjson : ("application/json", rbJSON) ∈ content) :
    (buildHelpGenData tbl specSecurity spName opID details).InputJSON =
      "Request Body Schema: <" ++ getSchemaRefName (.ptr rbJSON.Schema) ++ ":L1>" ++
        (if rb.Required then " (required)" else "") := by
  have hget := GoMap.get_of_mem content "application/json" rbJSON hwf hjson
  simp only [buildHelpGenData, InputJSON, hbody, hcontent, requestBodySummary, hget, withRequired]
  by_cases hreq : rb.Required = true <;> simp [hreq]

/-- C3 at a required body offered as multipart form data and as JSON `Foo`. -/
theorem C3_input_json_request_body_witness :
    (buildHelpGenData (fun _ => true) [] "series" "op"
        { bareOperation with RequestBody := some jsonAndMultipartBody }).InputJSON =
      "Request Body Schema: <Foo:L1> (required)" :=
  (C3_input_json_request_body (fun _ => true) [] "series" "op"
    { bareOperation with RequestBody := some jsonAndMultipartBody } jsonAndMultipartBody
    [("multipart/form-data", { Schema := .mk "" "object" .nil }),
     ("application/json", { Schema := refTo "Foo" })]
    { Schema := refTo "Foo" } rfl rfl (by decide) (by simp)).trans (by decide)

/-- C4: when the content-type map of the request body has an entry for
`multipart/form-data` and none for `application/json`, the input-shape summary is
`Request Body: Multipart Form Data`, followed by ` (required)` exactly when the
body is required. -/
theorem C4_input_json_multipart (tbl : Char → Bool)
    (specSecurity : List (GoMap (List String))) (spName opID : String)
    (details : OperationDetail) (rb : RequestBody) (content : GoMap MediaType)
    (hbody : details.RequestBody = some rb) (hcontent : rb.Content = some content)
    (hmulti : "multipart/form-data" ∈ content.keys)
    (hjson : "application/json" ∉ content.keys) :
    (buildHelpGenData tbl specSecurity spName opID details).InputJSON =
      "Request Body: Multipart Form Data" ++ (if rb.Required then " (required)" else "") := by
  have hnone := (GoMap.get_eq_none_iff content "application/json").2 hjson
  obtain ⟨mt, hsome⟩ := GoMap.exists_get_of_mem_keys content "multipart/form-data" hmulti
  simp only [buildHelpGenData, InputJSON, hbody, hcontent, requestBodySummary, hnone, hsome,
    withRequired]
  by_cases hreq : rb.Required = true <;> simp [hreq]

/-- C4 at a required body present only as multipart form data: the summary is
exactly `Request Body: Multipart Form Data (required)`. -/
theorem C4_input_json_multipart_witness :
    (buildHelpGenData (fun _ => true) [] "series" "op"
        { bareOperation with RequestBody := some multipartBody }).InputJSON =
      "Request Body: Multipart Form Data (required)" :=
  (C4_input_json_multipart (fun _ => true) [] "series" "op"
    { bareOperation with RequestBody := some multipartBody } multipartBody
    [("multipart/form-data", { Schema := .mk "" "object" .nil })] rfl rfl (by decide)
    (by decide)).trans (by decide)

/-- C5: for an operation without request body the input-shape summary is
`Path/Query Parameters` when the operation declares at least one parameter and
`None` when it declares none. -/
theorem C5_input_json_without_body (tbl : Char → Bool)
    (specSecurity : List (GoMap (List String))) (spName opID : String)
    (details : OperationDetail) (hbody : details.RequestBody = none) :
    (buildHelpGenData tbl specSecurity spName opID details).InputJSON =
      (if 0 < details.Parameters.length then "Path/Query Parameters" else "None") := by
  simp only [buildHelpGenData, InputJSON, hbody, parametersSummary, paramLoop,
    foldl_paramLoopBody_length]
  simp

/-- C5 at an operation with one parameter and at one with none. -/
theorem C5_input_json_without_body_witness :
    (buildHelpGenData (fun _ => true) [] "series" "op"
        { bareOperation with Parameters := [idParameter] }).InputJSON = "Path/Query Parameters" ∧
      (buildHelpGenData (fun _ => true) [] "series" "op" bareOperation).InputJSON = "None" :=
  ⟨(C5_input_json_without_body (fun _ => true) [] "series" "op"
      { bareOperation with Parameters := [idParameter] } rfl).trans (by decide),
    (C5_input_json_without_body (fun _ => true) [] "series" "op" bareOperation rfl).trans
      (by decide)⟩

/-- C6: the success status of the output-shape summary is the first of `200`,
`201`, `202`, `204` that is a key of the responses (`code`, with `pre` the codes
listed before it, none of them a key). When the response under it declares
`application/json` content, the summary is `Schema (on code): <N:L1>` with `N` the
resolved label of that schema. The summary depends on the responses only through
that response: any other responses with the same selected entry, whatever they
hold under the codes listed after it, give the same summary. -/
theorem C6_output_json_success_priority (tbl : Char → Bool)
    (specSecurity : List (GoMap (List String))) (spName opID : String)
    (details : OperationDetail) (pre post : List String) (code : String) (resp : Response)
    (hsplit : ["200", "201", "202", "204"] = pre ++ code :: post)
    (hwf : details.Responses.WellFormed) (hpre : ∀ c ∈ pre, c ∉ details.Responses.keys)
    (hmem : (code, resp) ∈ details.Responses) :
    successStatusCode details.Responses = code ∧
      (∀ (content : GoMap MediaType) (contentJSON : MediaType),
        resp.Content = some content → content.WellFormed →
        ("application/json", contentJSON) ∈ content →
        (buildHelpGenData tbl specSecurity spName opID details).OutputJSON =
          "Schema (on " ++ code ++ "): <" ++ getSchemaRefName (.ptr contentJSON.Schema) ++
            ":L1>") ∧
      (∀ details' : OperationDetail, details'.Responses.WellFormed →
        (∀ c ∈ pre, c ∉ details'.Responses.keys) → (code, resp) ∈ details'.Responses →
        (buildHelpGenData tbl specSecurity spName opID details').OutputJSON =
          (buildHelpGenData tbl specSecurity spName opID details).OutputJSON) := by
  have hout := OutputJSON_of_selected details.Responses pre post code resp hsplit hwf hpre hmem
  refine ⟨?_, ?_, ?_⟩
  · exact successStatusCode_eq details.Responses pre post code hsplit hpre
      (List.mem_map_of_mem Prod.fst hmem)
  · intro content contentJSON hcontent hcwf hjson
    have hget := GoMap.get_of_mem content "application/json" contentJSON hcwf hjson
    simp only [buildHelpGenData, hout, successSummary, hcontent, hget]
  · intro details' hwf' hpre' hmem'
    have hout' :=
      OutputJSON_of_selected details'.Responses pre post code resp hsplit hwf' hpre' hmem'
    simp only [buildHelpGenData, hout, hout']

/-- C6 at the responses `200` with JSON schema `Foo` and `404` `Not found`: the
summary is `Schema (on 200): <Foo:L1>`. -/
theorem C6_output_json_success_priority_witness :
    (buildHelpGenData (fun _ => true) [] "series" "op"
        { bareOperation with Responses := fooResponses }).OutputJSON =
      "Schema (on 200): <Foo:L1>" :=
  ((C6_output_json_success_priority (fun _ => true) [] "series" "op"
      { bareOperation with Responses := fooResponses } [] ["201", "202", "204"] "200"
      { Description := "OK", Content := some [("application/json", { Schema := refTo "Foo" })] }
      rfl (by decide) (by simp) (by simp [fooResponses])).2.1
    [("application/json", { Schema := refTo "Foo" })] { Schema := refTo "Foo" } rfl (by decide)
    (by simp)).trans (by decide)

/-- C7, as the code has it: when `204` is the selected success status, the
summary is `No Content (on 204)` if the response declares a content map that is
empty, and `Success Response (on 204, no content defined)` if the response has no
content map at all. -/
theorem C7_output_json_204 (tbl : Char → Bool)
    (specSecurity : List (GoMap (List String))) (spName opID : String)
    (details : OperationDetail) (resp : Response)
    (hwf : details.Responses.WellFormed)
    (hpre : ∀ c ∈ ["200", "201", "202"], c ∉ details.Responses.keys)
    (hmem : ("204", resp) ∈ details.Responses) :
    (resp.Content = some [] →
        (buildHelpGenData tbl specSecurity spName opID details).OutputJSON =
          "No Content (on 204)") ∧
      (resp.Content = none →
        (buildHelpGenData tbl specSecurity spName opID details).OutputJSON =
          "Success Response (on 204, no content defined)") := by
  have hout := OutputJSON_of_selected details.Responses ["200", "201", "202"] [] "204" resp rfl
    hwf hpre hmem
  constructor
  · intro hcontent
    simp only [buildHelpGenData, hout, successSummary, hcontent]
    decide
  · intro hcontent
    simp only [buildHelpGenData, hout, successSummary, hcontent]
    decide

/-- C7 (amended) at a `204` response with an empty content map. -/
theorem C7_output_json_204_witness :
    (buildHelpGenData (fun _ => true) [] "series" "op"
        { bareOperation with Responses := emptyContentResponses }).OutputJSON =
      "No Content (on 204)" :=
  (C7_output_json_204 (fun _ => true) [] "series" "op"
    { bareOperation with Responses := emptyContentResponses }
    { Description := "Deleted", Content := some [] } (by decide) (by decide)
    (by simp [emptyContentResponses])).1 rfl

/-- C7 fails as stated: an operation whose only response is a `204` without any
content has `204` as its success status, and its summary is
`Success Response (on 204, no content defined)`, not `No Content (on 204)`. -/
theorem C7_counterexample :
    successStatusCode noContentResponses = "204" ∧
      noContentResponses.get "204" = some { Description := "Deleted", Content := none } ∧
      (buildHelpGenData (fun _ => true) [] "series" "op"
          { bareOperation with Responses := noContentResponses }).OutputJSON =
        "Success Response (on 204, no content defined)" ∧
      (buildHelpGenData (fun _ => true) [] "series" "op"
          { bareOperation with Responses := noContentResponses }).OutputJSON ≠
        "No Content (on 204)" := by
  refine ⟨by decide, rfl, by decide, by decide⟩

/-- C8, as the code has it: for an operation with at least one response whose
status code begins with `4` or `5`, the error-example field is the Go literal of
the error map; the keys of that map are exactly those status codes; the value of
such a code is the description of its response, with ` (Schema: <N:L1>)` appended
when the response declares `application/json` content whose resolved label `N` is
neither empty nor `ApiResponseV1`, and with nothing appended when the response
declares no JSON content or `N` is empty or `ApiResponseV1`. -/
theorem C8_error_map_entries (tbl : Char → Bool)
    (specSecurity : List (GoMap (List String))) (spName opID : String)
    (details : OperationDetail) (hwf : details.Responses.WellFormed)
    (herr : ∃ k ∈ details.Responses.keys, hasPrefix k "4" = true ∨ hasPrefix k "5" = true) :
    (buildHelpGenData tbl specSecurity spName opID details).ErrorExample =
        "map[string]string\x7b" ++
          writeEntries tbl (errorMap details.Responses) (errorKeys details.Responses) ++ "\x7d" ∧
      (∀ k, k ∈ (errorMap details.Responses).keys ↔
        (k ∈ details.Responses.keys ∧ (hasPrefix k "4" = true ∨ hasPrefix k "5" = true))) ∧
      (∀ (code : String) (resp : Response), (code, resp) ∈ details.Responses →
        (hasPrefix code "4" = true ∨ hasPrefix code "5" = true) →
        ((resp.Content = none ∨
            ∃ content, resp.Content = some content ∧ "application/json" ∉ GoMap.keys content) →
          (errorMap details.Responses).get code = some resp.Description) ∧
        (∀ (content : GoMap MediaType) (contentJSON : MediaType),
          resp.Content = some content → content.WellFormed →
          ("application/json", contentJSON) ∈ content →
          (errorMap details.Responses).get code =
            some (if getSchemaRefName (.ptr contentJSON.Schema) = "" ∨
                  getSchemaRefName (.ptr contentJSON.Schema) = "ApiResponseV1"
              then resp.Description
              else resp.Description ++ " (Schema: <" ++
                getSchemaRefName (.ptr contentJSON.Schema) ++ ":L1>)"))) := by
  have hiff : ∀ k, isErrorCode k = true ↔ (hasPrefix k "4" = true ∨ hasPrefix k "5" = true) := by
    intro k; simp [isErrorCode]
  refine ⟨?_, ?_, ?_⟩
  · obtain ⟨k, hk, hke⟩ := herr
    have hne : errorMap details.Responses ≠ [] :=
      foldl_errorLoopBody_ne_nil details.Responses [] (Or.inr ⟨k, hk, (hiff k).2 hke⟩)
    have hlen : (errorMap details.Responses).length > 0 := List.length_pos.2 hne
    simp only [buildHelpGenData, ErrorExample, hlen, if_true]
  · intro k
    rw [errorMap_mem_keys, hiff]
  · intro code resp hmem hcode
    have hget := errorMap_get details.Responses hwf code resp hmem ((hiff code).2 hcode)
    constructor
    · intro hno
      rw [hget, errorMessage, errorSchemaName_of_no_json resp hno]
      simp
    · intro content contentJSON hc hcwf hj
      rw [hget, errorMessage, errorSchemaName_of_json resp content contentJSON hc hcwf hj]
      by_cases h1 : getSchemaRefName (.ptr contentJSON.Schema) = ""
      · simp [h1]
      · by_cases h2 : getSchemaRefName (.ptr contentJSON.Schema) = "ApiResponseV1"
        · simp [h2]
        · simp [h1, h2, String.append_assoc]

/-- C8 (amended) at the responses `200` with JSON schema `Foo` and `404`
`Not found`: the only key is `404`, and its value is `Not found`. -/
theorem C8_error_map_entries_witness :
    (buildHelpGenData (fun _ => true) [] "series" "op"
        { bareOperation with Responses := fooResponses }).ErrorExample =
        "map[string]string\x7b\"404\": \"Not found\"\x7d" ∧
      (errorMap fooResponses).keys = ["404"] ∧
      (errorMap fooResponses).get "404" = some "Not found" :=
  ⟨((C8_error_map_entries (fun _ => true) [] "series" "op"
      { bareOperation with Responses := fooResponses } (by decide)
      ⟨"404", by decide, Or.inl (by decide)⟩).1).trans (by decide),
    by decide,
    ((C8_error_map_entries (fun _ => true) [] "series" "op"
      { bareOperation with Responses := fooResponses } (by decide)
      ⟨"404", by decide, Or.inl (by decide)⟩).2.2 "404"
      { Description := "Not found", Content := none } (by simp [fooResponses])
      (Or.inl (by decide))).1 (Or.inl rfl)⟩

/-- C8 fails as stated: a `404` response whose JSON schema resolves to the empty
label (a reference ending in `/`) has a label that is not `ApiResponseV1`, yet
its value in the error map is the bare description, without the schema suffix. -/
theorem C8_counterexample :
    getSchemaRefName (.ptr (.mk "#/components/schemas/" "" .nil)) = "" ∧
      (errorMap trailingSlashResponses).get "404" = some "Not found" ∧
      (errorMap trailingSlashResponses).get "404" ≠
        some ("Not found" ++ " (Schema: <" ++
          getSchemaRefName (.ptr (.mk "#/components/schemas/" "" .nil)) ++ ":L1>)") ∧
      (buildHelpGenData (fun _ => true) [] "series" "op"
          { bareOperation with Responses := trailingSlashResponses }).ErrorExample =
        "map[string]string\x7b\"404\": \"Not found\"\x7d" := by
  refine ⟨by decide, by decide, by decide, by decide⟩

/-- C9: the error-example field of the record is the generic single-entry literal
`map[string]string{"Generic": "Standard API errors."}` exactly when no status code
of the responses begins with `4` or `5`; this covers the operation without any
response. The builder is a total function, so the record exists for every input. -/
theorem C9_generic_error_example (tbl : Char → Bool)
    (specSecurity : List (GoMap (List String))) (spName opID : String)
    (details : OperationDetail) :
    ((buildHelpGenData tbl specSecurity spName opID details).ErrorExample =
          "map[string]string\x7b\"Generic\": \"Standard API errors.\"\x7d" ↔
        ∀ k ∈ details.Responses.keys, hasPrefix k "4" = false ∧ hasPrefix k "5" = false) ∧
      (buildHelpGenData tbl specSecurity spName opID bareOperation).ErrorExample =
        "map[string]string\x7b\"Generic\": \"Standard API errors.\"\x7d" := by
  refine ⟨⟨?_, ?_⟩, rfl⟩
  · intro h k hk
    by_contra hcon
    have hke : isErrorCode k = true := by
      simp only [isErrorCode, Bool.or_eq_true]
      by_contra hno
      apply hcon
      constructor
      · cases h4 : hasPrefix k "4"
        · rfl
        · exact absurd (Or.inl h4) hno
      · cases h5 : hasPrefix k "5"
        · rfl
        · exact absurd (Or.inr h5) hno
    have hne : errorMap details.Responses ≠ [] :=
      foldl_errorLoopBody_ne_nil details.Responses [] (Or.inr ⟨k, hk, hke⟩)
    exact errorExample_ne_generic tbl details.Responses hne h
  · intro h
    have hnil : errorMap details.Responses = [] :=
      foldl_errorLoopBody_of_no_error details.Responses [] (fun k hk => by
        simp [isErrorCode, h k hk])
    simp [buildHelpGenData, ErrorExample, hnil]

/-- C10: for an operation with at least one 4xx/5xx response, the error-example
field is the Go literal whose entries `"key": "value"` follow the keys of the
error map in strictly ascending order, each key of the map once; responses
enumerated in another order give the same field. -/
theorem C10_error_example_sorted (tbl : Char → Bool)
    (specSecurity : List (GoMap (List String))) (spName opID : String)
    (details : OperationDetail) (hwf : details.Responses.WellFormed)
    (herr : ∃ k ∈ details.Responses.keys, hasPrefix k "4" = true ∨ hasPrefix k "5" = true) :
    (buildHelpGenData tbl specSecurity spName opID details).ErrorExample =
        "map[string]string\x7b" ++
          ", ".intercalate ((errorKeys details.Responses).map fun k =>
            quote tbl k ++ ": " ++ quote tbl (((errorMap details.Responses).get k).getD "")) ++
          "\x7d" ∧
      (errorKeys details.Responses).Pairwise (fun a b => a < b) ∧
      (errorKeys details.Responses).Perm (errorMap details.Responses).keys ∧
      (errorMap details.Responses).keys.Nodup ∧
      (∀ details' : OperationDetail, details'.Responses.Perm details.Responses →
        (buildHelpGenData tbl specSecurity spName opID details').ErrorExample =
          (buildHelpGenData tbl specSecurity spName opID details).ErrorExample) := by
  have hnodup : (errorMap details.Responses).keys.Nodup :=
    errorMap_wellFormed details.Responses hwf
  have hperm := sortStrings_perm (errorMap details.Responses).keys
  refine ⟨?_, ?_, hperm, hnodup, ?_⟩
  · obtain ⟨k, hk, hke⟩ := herr
    have hne : errorMap details.Responses ≠ [] :=
      foldl_errorLoopBody_ne_nil details.Responses []
        (Or.inr ⟨k, hk, by simpa [isErrorCode] using hke⟩)
    have hlen : (errorMap details.Responses).length > 0 := List.length_pos.2 hne
    simp only [buildHelpGenData, ErrorExample, hlen, if_true, writeEntries_eq_join,
      join_eq_intercalate]
  · exact (sortStrings_sorted _).lt_of_le ((hperm.nodup_iff).2 hnodup)
  · intro details' hp
    exact errorExample_eq_of_perm tbl details.Responses details'.Responses hp hwf

/-- C10 at responses enumerated as `500`, `200`, `404`: the literal lists `404`
before `500`. -/
theorem C10_error_example_sorted_witness :
    (buildHelpGenData (fun _ => true) [] "series" "op"
        { bareOperation with Responses := unorderedResponses }).ErrorExample =
      "map[string]string\x7b\"404\": \"Not found\", \"500\": \"Server error\"\x7d" :=
  ((C10_error_example_sorted (fun _ => true) [] "series" "op"
      { bareOperation with Responses := unorderedResponses } (by decide)
      ⟨"404", by decide, Or.inl (by decide)⟩).1).trans (by decide)

/-! ## Lemmas on the grouping pass -/

theorem GoMap.get_set_self {V : Type} (m : GoMap V) (k : String) (v : V) :
    (m.set k v).get k = some v := by
  induction m with
  | nil => simp [GoMap.set, GoMap.get, List.lookup]
  | cons e m ih =>
    obtain ⟨k', v'⟩ := e
    by_cases h : k' = k
    · simp [GoMap.set, GoMap.get, List.lookup, h]
    · have hbeq : (k == k') = false := by simpa using fun e => h e.symm
      simp only [GoMap.set, h, if_false, GoMap.get] at ih ⊢
      rw [List.lookup_cons, hbeq]
      exact ih

theorem GoMap.get_set_ne {V : Type} (m : GoMap V) (k k' : String) (v : V) (hne : k' ≠ k) :
    (m.set k v).get k' = m.get k' := by
  induction m with
  | nil =>
    have hbeq : (k' == k) = false := by simpa using hne
    simp [GoMap.set, GoMap.get, List.lookup, hbeq]
  | cons e m ih =>
    obtain ⟨k₀, v₀⟩ := e
    by_cases h : k₀ = k
    · subst h
      have hbeq : (k' == k₀) = false := by simpa using hne
      simp only [GoMap.set, if_true, GoMap.get]
      rw [List.lookup_cons, List.lookup_cons, hbeq]
    · simp only [GoMap.set, h, if_false, GoMap.get] at ih ⊢
      rw [List.lookup_cons, List.lookup_cons, ih]

theorem GoMap.set_wellFormed {V : Type} (m : GoMap V) (k : String) (v : V)
    (hwf : m.WellFormed) : (m.set k v).WellFormed := by
  induction m with
  | nil => simp [GoMap.set, GoMap.WellFormed, GoMap.keys]
  | cons e m ih =>
    obtain ⟨k₀, v₀⟩ := e
    simp only [GoMap.WellFormed, GoMap.keys, List.map_cons, List.nodup_cons] at hwf
    by_cases h : k₀ = k
    · subst h
      simpa [GoMap.set, GoMap.WellFormed, GoMap.keys] using hwf
    · simp only [GoMap.set, h, if_false, GoMap.WellFormed, GoMap.keys, List.map_cons,
        List.nodup_cons]
      refine ⟨?_, ih hwf.2⟩
      intro hmem
      rcases (GoMap.mem_keys_set m k k₀ v).1 hmem with h' | h'
      · exact h h'
      · exact hwf.1 h'

theorem GoMap.mem_set {V : Type} (m : GoMap V) (k : String) (v : V) (e : String × V)
    (h : e ∈ m.set k v) : e = (k, v) ∨ e ∈ m := by
  induction m with
  | nil => simpa [GoMap.set] using h
  | cons e₀ m ih =>
    obtain ⟨k₀, v₀⟩ := e₀
    by_cases hk : k₀ = k
    · simp only [GoMap.set, hk, if_true, List.mem_cons] at h
      rcases h with h | h
      · exact Or.inl h
      · exact Or.inr (List.mem_cons_of_mem _ h)
    · simp only [GoMap.set, hk, if_false, List.mem_cons] at h
      rcases h with h | h
      · exact Or.inr (by rw [h]; exact List.mem_cons_self _ _)
      · rcases ih h with h' | h'
        · exact Or.inl h'
        · exact Or.inr (List.mem_cons_of_mem _ h')

/-- The grouping pass as one loop over the operations in visiting order. -/
theorem subprogramOps_eq_foldl (spec : OpenAPISpec) :
    subprogramOps spec =
      (operationsOf spec.Paths).foldl
        (fun acc e => groupLoopBody e.Path e.Method acc e.Details) [] := by
  unfold subprogramOps
  generalize ([] : GoMap (GoMap OpData)) = acc
  induction spec.Paths generalizing acc with
  | nil => rfl
  | cons p ps ih =>
    obtain ⟨pathStr, pathItem⟩ := p
    simp only [List.foldl_cons, operationsOf, List.foldl_append, List.foldl_map]
    exact ih _

theorem mem_operationsOf (paths : GoMap (GoMap OperationDetail)) (pathStr methodStr : String)
    (pathItem : GoMap OperationDetail) (opDetail : OperationDetail)
    (hp : (pathStr, pathItem) ∈ paths) (ho : (methodStr, opDetail) ∈ pathItem) :
    ({ Details := opDetail, Path := pathStr, Method := methodStr } : OpData) ∈
      operationsOf paths := by
  induction paths with
  | nil => simp at hp
  | cons p ps ih =>
    obtain ⟨p₀, item₀⟩ := p
    simp only [operationsOf, List.mem_append, List.mem_map]
    simp only [List.mem_cons, Prod.mk.injEq] at hp
    rcases hp with ⟨h1, h2⟩ | hp
    · subst h1 h2
      exact Or.inl ⟨(methodStr, opDetail), ho, rfl⟩
    · exact Or.inr (ih hp)

theorem groupLoopBody_skip (pathStr methodStr : String) (acc : GoMap (GoMap OpData))
    (opDetail : OperationDetail)
    (h : opDetail.OperationID = "" ∨ opDetail.Tags = []) :
    groupLoopBody pathStr methodStr acc opDetail = acc := by
  unfold groupLoopBody
  by_cases hid : opDetail.OperationID = ""
  · simp [hid]
  · rcases h with h | h
    · exact absurd h hid
    · simp [hid, h]

theorem groupLoopBody_get (pathStr methodStr : String) (acc : GoMap (GoMap OpData))
    (opDetail : OperationDetail) (t : String) (ts : List String)
    (hid : opDetail.OperationID ≠ "") (htags : opDetail.Tags = t :: ts) (g : String) :
    (groupLoopBody pathStr methodStr acc opDetail).get g =
      if g = t then
        some (((acc.get t).getD []).set opDetail.OperationID
          { Details := opDetail, Path := pathStr, Method := methodStr })
      else acc.get g := by
  unfold groupLoopBody
  simp only [hid, if_false, htags]
  by_cases hg : g = t
  · subst hg
    simp only [if_true, GoMap.get_set_self]
    cases hget : acc.get g with
    | none => simp [GoMap.get_set_self]
    | some inner => simp [hget]
  · simp only [hg, if_false]
    rw [GoMap.get_set_ne _ _ _ _ hg]
    cases hget : acc.get t with
    | none => simp only; rw [GoMap.get_set_ne _ _ _ _ hg]
    | some inner => rfl

theorem groupLoopBody_placed (pathStr methodStr : String) (acc : GoMap (GoMap OpData))
    (opDetail : OperationDetail) (t : String) (ts : List String)
    (hid : opDetail.OperationID ≠ "") (htags : opDetail.Tags = t :: ts)
    (g opID : String) (e : OpData) :
    PlacedIn (groupLoopBody pathStr methodStr acc opDetail) g opID e ↔
      ((g = t ∧ opID = opDetail.OperationID ∧
          e = { Details := opDetail, Path := pathStr, Method := methodStr }) ∨
        (¬ (g = t ∧ opID = opDetail.OperationID) ∧ PlacedIn acc g opID e)) := by
  unfold PlacedIn
  rw [groupLoopBody_get pathStr methodStr acc opDetail t ts hid htags g]
  by_cases hg : g = t
  · subst hg
    simp only [if_true, Option.some.injEq, exists_eq_left', true_and]
    by_cases ho : opID = opDetail.OperationID
    · subst ho
      rw [GoMap.get_set_self]
      simp only [Option.some.injEq, true_and, not_true_eq_false, false_and, or_false]
      exact eq_comm
    · rw [GoMap.get_set_ne _ _ _ _ ho]
      simp only [ho, false_and, not_false_eq_true, true_and, false_or]
      cases hget : acc.get g with
      | none => simp [GoMap.get]
      | some inner => simp
  · simp [hg]

theorem foldl_groupLoopBody_placed (ops : List OpData) (acc : GoMap (GoMap OpData))
    (hu : ops.Pairwise fun x y =>
      x.Details.OperationID ≠ "" → x.Details.OperationID ≠ y.Details.OperationID)
    (g opID : String) (e : OpData) :
    PlacedIn (ops.foldl (fun acc e => groupLoopBody e.Path e.Method acc e.Details) acc)
        g opID e ↔
      ((∃ x ∈ ops, x.Details.OperationID ≠ "" ∧ x.Details.Tags.head? = some g ∧
          x.Details.OperationID = opID ∧ e = x) ∨
        (PlacedIn acc g opID e ∧
          ∀ x ∈ ops, x.Details.OperationID ≠ "" → x.Details.Tags.head? = some g →
            x.Details.OperationID ≠ opID)) := by
  induction ops generalizing acc with
  | nil => simp
  | cons x rest ih =>
    rw [List.pairwise_cons] at hu
    simp only [List.foldl_cons]
    rw [ih _ hu.2]
    by_cases hid : x.Details.OperationID = ""
    · rw [groupLoopBody_skip _ _ _ _ (Or.inl hid)]
      simp [hid]
    · cases htags : x.Details.Tags with
      | nil =>
        rw [groupLoopBody_skip _ _ _ _ (Or.inr htags)]
        simp [htags]
      | cons t ts =>
        rw [groupLoopBody_placed x.Path x.Method acc x.Details t ts hid htags]
        have hx : ({ Details := x.Details, Path := x.Path, Method := x.Method } : OpData) = x := by
          cases x; rfl
        rw [hx]
        simp only [List.mem_cons, exists_eq_or_imp, forall_eq_or_imp, htags, List.head?_cons,
          Option.some.injEq]
        constructor
        · rintro (h | ⟨h | h, hall⟩)
          · exact Or.inl (Or.inr h)
          · exact Or.inl (Or.inl ⟨hid, h.1.symm, h.2.1.symm, h.2.2⟩)
          · refine Or.inr ⟨h.2, ?_, hall⟩
            intro _ htg hxo
            exact h.1 ⟨htg.symm, hxo.symm⟩
        · rintro ((h | h) | h)
          · obtain ⟨_, htg, hxo, he⟩ := h
            refine Or.inr ⟨Or.inl ⟨htg.symm, hxo.symm, he⟩, ?_⟩
            intro y hy hyid _ hyo
            exact hu.1 y hy hid (hxo.trans hyo.symm)
          · exact Or.inl h
          · obtain ⟨hp, hxn, hall⟩ := h
            refine Or.inr ⟨Or.inr ⟨?_, hp⟩, hall⟩
            rintro ⟨htg, hxo⟩
            exact hxn hid htg.symm hxo.symm

theorem foldl_groupLoopBody_keys (ops : List OpData) (acc : GoMap (GoMap OpData))
    (g : String) :
    g ∈ GoMap.keys
        (ops.foldl (fun acc e => groupLoopBody e.Path e.Method acc e.Details) acc) ↔
      (g ∈ GoMap.keys acc ∨
        ∃ x ∈ ops, x.Details.OperationID ≠ "" ∧ x.Details.Tags.head? = some g) := by
  induction ops generalizing acc with
  | nil => simp
  | cons x rest ih =>
    simp only [List.foldl_cons]
    rw [ih]
    by_cases hid : x.Details.OperationID = ""
    · rw [groupLoopBody_skip _ _ _ _ (Or.inl hid)]
      simp [hid]
    · cases htags : x.Details.Tags with
      | nil =>
        rw [groupLoopBody_skip _ _ _ _ (Or.inr htags)]
        simp [htags]
      | cons t ts =>
        have hkeys : g ∈ GoMap.keys (groupLoopBody x.Path x.Method acc x.Details) ↔
            (g = t ∨ g ∈ GoMap.keys acc) := by
          rw [← GoMap.get_isSome_iff, ← GoMap.get_isSome_iff,
            groupLoopBody_get x.Path x.Method acc x.Details t ts hid htags g]
          by_cases hg : g = t <;> simp [hg]
        rw [hkeys]
        simp only [List.mem_cons, exists_eq_or_imp, htags, List.head?_cons, Option.some.injEq]
        constructor
        · rintro ((h | h) | h)
          · exact Or.inr (Or.inl ⟨hid, h.symm⟩)
          · exact Or.inl h
          · exact Or.inr (Or.inr h)
        · rintro (h | h | h)
          · exact Or.inl (Or.inr h)
          · exact Or.inl (Or.inl h.2.symm)
          · exact Or.inr h

theorem groupLoopBody_inner_wellFormed (pathStr methodStr : String)
    (acc : GoMap (GoMap OpData)) (opDetail : OperationDetail)
    (hacc : ∀ group ∈ acc, GoMap.WellFormed group.2) :
    ∀ group ∈ groupLoopBody pathStr methodStr acc opDetail, GoMap.WellFormed group.2 := by
  intro group hgroup
  unfold groupLoopBody at hgroup
  by_cases hid : opDetail.OperationID = ""
  · simp only [hid, if_true] at hgroup
    exact hacc group hgroup
  · cases htags : opDetail.Tags with
    | nil =>
      simp only [hid, if_false, htags] at hgroup
      exact hacc group hgroup
    | cons t ts =>
      simp only [hid, if_false, htags] at hgroup
      have hwith : ∀ group ∈ (match acc.get t with
          | some _ => acc
          | none => acc.set t []), GoMap.WellFormed group.2 := by
        intro group' hg'
        cases hget : acc.get t with
        | none =>
          simp only [hget] at hg'
          rcases GoMap.mem_set _ _ _ _ hg' with h | h
          · rw [h]
            simp [GoMap.WellFormed, GoMap.keys]
          · exact hacc group' h
        | some inner =>
          simp only [hget] at hg'
          exact hacc group' hg'
      rcases GoMap.mem_set _ _ _ _ hgroup with h | h
      · rw [h]
        apply GoMap.set_wellFormed
        cases hget : GoMap.get (match acc.get t with
            | some _ => acc
            | none => acc.set t []) t with
        | none => simp [GoMap.WellFormed, GoMap.keys]
        | some inner => exact hwith (t, inner) (GoMap.mem_of_get _ _ _ hget)
      · exact hwith group h

theorem subprogramOps_inner_wellFormed (spec : OpenAPISpec) :
    ∀ group ∈ subprogramOps spec, GoMap.WellFormed group.2 := by
  rw [subprogramOps_eq_foldl]
  generalize hacc : ([] : GoMap (GoMap OpData)) = acc
  have hinit : ∀ group ∈ acc, GoMap.WellFormed group.2 := by
    subst hacc
    intro group h
    simp at h
  clear hacc
  induction operationsOf spec.Paths generalizing acc with
  | nil => exact hinit
  | cons x rest ih =>
    simp only [List.foldl_cons]
    exact ih _ (groupLoopBody_inner_wellFormed x.Path x.Method acc x.Details hinit)

/-- C11: in an API description with unique operation identifiers, an operation
found under a path and a method is placed in the group `g` exactly when its
identifier is not empty and `g` is its first tag: so it is placed iff it has an
identifier and a tag, then in one group only, and never when its tag list or its
identifier is empty. The groups themselves are exactly the first tags of the
operations that have an identifier: the other tags create no group. -/
theorem C11_grouping_by_first_tag (spec : OpenAPISpec) (hunique : UniqueOperationIDs spec) :
    (∀ (pathStr methodStr : String) (pathItem : GoMap OperationDetail)
        (opDetail : OperationDetail) (g : String),
        (pathStr, pathItem) ∈ spec.Paths → (methodStr, opDetail) ∈ pathItem →
        (PlacedIn (subprogramOps spec) g opDetail.OperationID
            { Details := opDetail, Path := pathStr, Method := methodStr } ↔
          (opDetail.OperationID ≠ "" ∧ opDetail.Tags.head? = some g))) ∧
      (∀ g : String, g ∈ GoMap.keys (subprogramOps spec) ↔
        ∃ e ∈ operationsOf spec.Paths,
          e.Details.OperationID ≠ "" ∧ e.Details.Tags.head? = some g) := by
  constructor
  · intro pathStr methodStr pathItem opDetail g hp ho
    have hmem := mem_operationsOf spec.Paths pathStr methodStr pathItem opDetail hp ho
    rw [subprogramOps_eq_foldl, foldl_groupLoopBody_placed _ _ hunique]
    constructor
    · rintro (⟨x, _, hid, htag, _, he⟩ | ⟨⟨inner, hget, _⟩, _⟩)
      · subst he
        exact ⟨hid, htag⟩
      · simp [GoMap.get] at hget
    · rintro ⟨hid, htag⟩
      exact Or.inl ⟨_, hmem, hid, htag, rfl, rfl⟩
  · intro g
    rw [subprogramOps_eq_foldl, foldl_groupLoopBody_keys]
    simp [GoMap.keys]

/-- C11 at the sample description: the operation `a`, tagged `series` and
`extra`, is placed in the group `series` and not in a group `extra`; the
operation `d` without tag and the tagged operation without identifier are placed
in no group; no group `extra` exists. -/
theorem C11_grouping_by_first_tag_witness :
    PlacedIn (subprogramOps sampleSpec) "series" "a"
        { Details := taggedOperation "a" ["series", "extra"], Path := "/a", Method := "get" } ∧
      ¬ PlacedIn (subprogramOps sampleSpec) "extra" "a"
        { Details := taggedOperation "a" ["series", "extra"], Path := "/a", Method := "get" } ∧
      (∀ g, ¬ PlacedIn (subprogramOps sampleSpec) g "d"
        { Details := taggedOperation "d" [], Path := "/a", Method := "post" }) ∧
      (∀ g, ¬ PlacedIn (subprogramOps sampleSpec) g ""
        { Details := taggedOperation "" ["series"], Path := "/c", Method := "put" }) ∧
      GoMap.keys (subprogramOps sampleSpec) = ["series"] :=
  ⟨((C11_grouping_by_first_tag sampleSpec (by decide)).1 "/a" "get" _ _ "series"
      (List.mem_cons_of_mem _ (List.mem_cons_self _ _)) (List.mem_cons_self _ _)).2
      ⟨by decide, rfl⟩,
    fun h => absurd (((C11_grouping_by_first_tag sampleSpec (by decide)).1 "/a" "get" _ _ "extra"
      (List.mem_cons_of_mem _ (List.mem_cons_self _ _)) (List.mem_cons_self _ _)).1 h).2
      (by decide),
    fun g h => absurd (((C11_grouping_by_first_tag sampleSpec (by decide)).1 "/a" "post" _ _ g
      (List.mem_cons_of_mem _ (List.mem_cons_self _ _))
      (List.mem_cons_of_mem _ (List.mem_cons_self _ _))).1 h).2 (by simp [taggedOperation]),
    fun g h => absurd (((C11_grouping_by_first_tag sampleSpec (by decide)).1 "/c" "put" _ _ g
      (List.mem_cons_of_mem _ (List.mem_cons_of_mem _ (List.mem_cons_self _ _)))
      (List.mem_cons_of_mem _ (List.mem_cons_self _ _))).1 h).1 (by simp [taggedOperation]),
    by decide⟩

theorem groupRecords_perm (tbl : Char → Bool) (specSecurity : List (GoMap (List String)))
    (spName : String) (opsMap : GoMap OpData) (hwf : opsMap.WellFormed) :
    (groupRecords tbl specSecurity spName opsMap).Perm
      (opsMap.map fun entry =>
        (entry.1, buildHelpGenData tbl specSecurity spName entry.1 entry.2.Details)) := by
  have hperm : (opIDs opsMap).Perm (GoMap.keys opsMap) := sortStrings_perm _
  have hmap := hperm.map fun opID =>
    (opID, buildHelpGenData tbl specSecurity spName opID
      ((opsMap.get opID).getD OpData.zero).Details)
  refine hmap.trans ?_
  simp only [GoMap.keys, List.map_map]
  apply List.Perm.of_eq
  apply List.map_congr_left
  intro entry hentry
  have hget := GoMap.get_of_mem opsMap entry.1 entry.2 hwf hentry
  simp [hget]

theorem groupRecords_eq_of_perm (tbl : Char → Bool)
    (specSecurity : List (GoMap (List String))) (spName : String)
    (opsMap opsMap' : GoMap OpData) (h : opsMap'.Perm opsMap) (hwf : opsMap.WellFormed) :
    groupRecords tbl specSecurity spName opsMap' = groupRecords tbl specSecurity spName opsMap := by
  have hwf' : opsMap'.WellFormed := ((h.map Prod.fst).nodup_iff).2 hwf
  have hids : opIDs opsMap' = opIDs opsMap := sortStrings_eq_of_perm _ _ (h.map Prod.fst)
  have hget : ∀ k, opsMap'.get k = opsMap.get k := GoMap.get_eq_of_perm _ _ h hwf'
  simp only [groupRecords, hids, hget]

/-- C12: for every group of the catalog, the records are written in strictly
ascending order of operation identifier, they are a permutation of the records
of the operations of the group, and a group enumerated in another order gives
the same list of records. -/
theorem C12_records_sorted_by_id (tbl : Char → Bool) (spec : OpenAPISpec) (spName : String)
    (opsMap : GoMap OpData) (hgroup : (spName, opsMap) ∈ subprogramOps spec) :
    (spName, groupRecords tbl spec.Security spName opsMap) ∈ generate tbl spec ∧
      ((groupRecords tbl spec.Security spName opsMap).map Prod.fst).Pairwise
        (fun a b => a < b) ∧
      (groupRecords tbl spec.Security spName opsMap).Perm
        (opsMap.map fun entry =>
          (entry.1, buildHelpGenData tbl spec.Security spName entry.1 entry.2.Details)) ∧
      (∀ opsMap' : GoMap OpData, opsMap'.Perm opsMap →
        groupRecords tbl spec.Security spName opsMap' =
          groupRecords tbl spec.Security spName opsMap) := by
  have hwf : opsMap.WellFormed := subprogramOps_inner_wellFormed spec (spName, opsMap) hgroup
  refine ⟨?_, ?_, groupRecords_perm tbl spec.Security spName opsMap hwf, ?_⟩
  · simp only [generate, List.mem_map]
    exact ⟨(spName, opsMap), hgroup, rfl⟩
  · have hids : (groupRecords tbl spec.Security spName opsMap).map Prod.fst = opIDs opsMap := by
      simp [groupRecords, Function.comp_def]
    rw [hids]
    have hperm : (opIDs opsMap).Perm (GoMap.keys opsMap) := sortStrings_perm _
    exact (sortStrings_sorted _).lt_of_le ((hperm.nodup_iff).2 hwf)
  · intro opsMap' hp
    exact groupRecords_eq_of_perm tbl spec.Security spName opsMap opsMap' hp hwf

/-- C12 at the sample description, whose group `series` holds the identifiers
`b`, `a`, `c` in that order: the records are written in the order `a`, `b`, `c`. -/
theorem C12_records_sorted_by_id_witness :
    ((groupRecords (fun _ => true) sampleSpec.Security "series" sampleGroup).map
        Prod.fst).Pairwise (fun a b => a < b) ∧
      GoMap.keys sampleGroup = ["b", "a", "c"] ∧
      (groupRecords (fun _ => true) sampleSpec.Security "series" sampleGroup).map Prod.fst =
        ["a", "b", "c"] :=
  ⟨(C12_records_sorted_by_id (fun _ => true) sampleSpec "series" sampleGroup
      (List.mem_singleton.2 rfl)).2.1, by decide, by decide⟩

/-! ## Lemmas on the argument list and the resolver -/

theorem foldl_paramLoopBody_arguments (params : List Parameter) (st : ParamLoopState) :
    (params.foldl paramLoopBody st).Arguments =
      st.Arguments ++ params.map fun param =>
        { Name := param.Name, Typ := paramTypeStr param, Required := param.Required,
          Description := param.Description, Default := argDefault param } := by
  induction params generalizing st with
  | nil => simp
  | cons p ps ih => simp [ih, paramLoopBody]

theorem argument_eq_spec (param : Parameter) :
    ({ Name := param.Name, Typ := paramTypeStr param, Required := param.Required,
       Description := param.Description, Default := argDefault param } : ArgHelpGo) =
      specArgument param := by
  have htyp : paramTypeStr param =
      param.Schema.Typ ++
        (if param.Schema.Format ≠ "" then "(" ++ param.Schema.Format ++ ")" else "") := by
    unfold paramTypeStr
    by_cases hf : param.Schema.Format = "" <;> simp [hf, String.append_assoc]
  have hdef : argDefault param =
      (if param.Schema.Default.isNull then "" else sprintV param.Schema.Default) := by
    unfold argDefault
    cases param.Schema.Default <;> simp [Value.isNull]
  simp only [specArgument, htyp, hdef]

theorem splitChars_spec (sep : Char) (cs : List Char) :
    sep ∉ (splitChars sep cs).1 ∧
      ((splitChars sep cs).2 = [] → cs = (splitChars sep cs).1) ∧
      (∀ l, (splitChars sep cs).2.getLast? = some l →
        sep ∉ l ∧ ∃ pre, cs = pre ++ sep :: l) := by
  induction cs with
  | nil => simp [splitChars]
  | cons c cs ih =>
    obtain ⟨ih1, ih2, ih3⟩ := ih
    by_cases hc : c = sep
    · subst hc
      simp only [splitChars, if_true]
      refine ⟨by simp, by simp, ?_⟩
      intro l hl
      cases hps : (splitChars c cs).2 with
      | nil =>
        rw [hps] at hl
        simp only [List.getLast?_singleton, Option.some.injEq] at hl
        subst hl
        refine ⟨ih1, [], ?_⟩
        rw [← ih2 hps]
        rfl
      | cons q qs =>
        rw [hps, List.getLast?_cons_cons] at hl
        rw [hps] at ih3
        obtain ⟨hno, pre, hpre⟩ := ih3 l hl
        exact ⟨hno, c :: pre, by rw [hpre]; rfl⟩
    · simp only [splitChars, hc, if_false]
      refine ⟨?_, ?_, ?_⟩
      · simp only [List.mem_cons, not_or]
        exact ⟨fun h => hc h.symm, ih1⟩
      · intro hps
        rw [← ih2 hps]
      · intro l hl
        obtain ⟨hno, pre, hpre⟩ := ih3 l hl
        exact ⟨hno, c :: pre, by rw [hpre]; rfl⟩

/-- C13: the argument list of the record has one entry per parameter, in declared
order; the entry of a parameter carries its name unmodified, the type label
`type(format)` (the parenthesised part only for a non-empty format), the required
flag and the description, and its default field is the `%v` rendering of the
declared default, the empty string when no default is declared. -/
theorem C13_argument_help_list (tbl : Char → Bool)
    (specSecurity : List (GoMap (List String))) (spName opID : String)
    (details : OperationDetail) :
    (buildHelpGenData tbl specSecurity spName opID details).Arguments =
        details.Parameters.map specArgument ∧
      (buildHelpGenData tbl specSecurity spName opID details).Arguments.length =
        details.Parameters.length ∧
      (buildHelpGenData (fun _ => true) [] "series" "op"
          { bareOperation with Parameters := defaultParameters }).Arguments.map
          ArgHelpGo.fields =
        [("order_by", "string", false, "Order", "asc"),
         ("per_page", "integer(int32)", false, "Page size", "10"),
         ("pending", "boolean", false, "", "true"),
         ("id", "integer(int64)", true, "The id", "")] := by
  have hargs : (buildHelpGenData tbl specSecurity spName opID details).Arguments =
      details.Parameters.map specArgument := by
    simp only [buildHelpGenData, paramLoop, foldl_paramLoopBody_arguments, List.nil_append]
    exact List.map_congr_left (fun p _ => argument_eq_spec p)
  refine ⟨hargs, ?_, by decide⟩
  rw [hargs, List.length_map]

/-- C14: for a schema with a non-empty reference, whatever its type and items,
the resolver returns the text after the last `/` of the reference, the whole
reference when it has no `/`; the label has no `/`. -/
theorem C14_resolve_reference (ref typ : String) (items : RefSchemaPtr) (href : ref ≠ "") :
    '/' ∉ (getSchemaRefName (.ptr (.mk ref typ items))).data ∧
      ((∃ pre : List Char,
          ref.data = pre ++ '/' ::
            (getSchemaRefName (.ptr (.mk ref typ items))).data) ∨
        ('/' ∉ ref.data ∧ getSchemaRefName (.ptr (.mk ref typ items)) = ref)) := by
  obtain ⟨h1, h2, h3⟩ := splitChars_spec '/' ref.data
  have hlabel : getSchemaRefName (.ptr (.mk ref typ items)) =
      String.mk (((splitChars '/' ref.data).1 :: (splitChars '/' ref.data).2).getLast
        (by simp)) := by
    simp only [getSchemaRefName, href, ne_eq, not_false_eq_true, if_true, split,
      List.getLast_map]
  rw [hlabel]
  cases hps : (splitChars '/' ref.data).2 with
  | nil =>
    have hcs := h2 hps
    simp only [List.getLast_singleton]
    refine ⟨h1, Or.inr ⟨?_, ?_⟩⟩
    · rw [hcs]; exact h1
    · rw [← hcs]
  | cons q qs =>
    have hl : (splitChars '/' ref.data).2.getLast? = some ((q :: qs).getLast (by simp)) := by
      rw [hps]; exact List.getLast?_eq_getLast _ _
    obtain ⟨hno, pre, hpre⟩ := h3 _ hl
    rw [List.getLast_cons (by simp)]
    exact ⟨hno, Or.inl ⟨pre, hpre⟩⟩

/-- C14 at the reference `#/components/schemas/Foo` of an array schema with
items: the label is `Foo`. -/
theorem C14_resolve_reference_witness :
    getSchemaRefName (.ptr (.mk "#/components/schemas/Foo" "array" (.ptr (refTo "Item")))) =
        "Foo" ∧
      '/' ∉
        (getSchemaRefName
          (.ptr (.mk "#/components/schemas/Foo" "array" (.ptr (refTo "Item"))))).data :=
  ⟨by decide,
    (C14_resolve_reference "#/components/schemas/Foo" "array" (.ptr (refTo "Item"))
      (by decide)).1⟩

/-- C15, as the code has it: for an array schema (declared type `array`) with an
item schema and an empty reference, the resolver returns `[]` followed by the
resolved label of the item schema; an array nested `k` deep over a schema yields
`k` markers followed by the label of that schema, `[][]Item` for two levels over
the named schema `Item`. -/
theorem C15_resolve_array (item : RefSchema) (k : Nat) :
    getSchemaRefName (.ptr (.mk "" "array" (.ptr item))) =
        "[]" ++ getSchemaRefName (.ptr item) ∧
      getSchemaRefName (.ptr (nestArray k item)) =
        arrayMarkers k ++ getSchemaRefName (.ptr item) ∧
      getSchemaRefName (.ptr (nestArray 2 (refTo "Item"))) = "[][]Item" := by
  have hstep : ∀ s : RefSchema, getSchemaRefName (.ptr (.mk "" "array" (.ptr s))) =
      "[]" ++ getSchemaRefName (.ptr s) := by
    intro s
    simp [getSchemaRefName, RefSchemaPtr.isNil]
  refine ⟨hstep item, ?_, by decide⟩
  induction k with
  | zero => simp [nestArray, arrayMarkers]
  | succ k ih => simp only [nestArray, arrayMarkers, hstep, ih, String.append_assoc]

/-- C15 fails as stated: an array schema with an item schema that also carries the
reference `#/components/schemas/Foo` resolves to `Foo`, not to `[]` followed by
the label `Item` of its item schema. -/
theorem C15_counterexample :
    getSchemaRefName (.ptr (.mk "#/components/schemas/Foo" "array" (.ptr (refTo "Item")))) =
        "Foo" ∧
      "[]" ++ getSchemaRefName (.ptr (refTo "Item")) = "[]Item" ∧
      getSchemaRefName (.ptr (.mk "#/components/schemas/Foo" "array" (.ptr (refTo "Item")))) ≠
        "[]" ++ getSchemaRefName (.ptr (refTo "Item")) := by
  refine ⟨by decide, by decide, by decide⟩

/-! ## Lemmas on the depth limiter -/

theorem processSchemaForHelp_beyond (v : Value) (level maxLevel : Int) (h : level > maxLevel) :
    processSchemaForHelp v level maxLevel =
      .str ("<Nested data: L" ++ toString level ++ "+>") := by
  cases v <;> simp [processSchemaForHelp, h]

theorem incInt_of_lt (level : Int) (h : level < maxInt) : incInt level = level + 1 := by
  have hne : ¬ level = maxInt := by omega
  simp [incInt, hne]

theorem incInt_le_maxInt (level : Int) (h : level ≤ maxInt) : incInt level ≤ maxInt := by
  unfold incInt
  by_cases hm : level = maxInt
  · simp only [hm, if_true]
    decide
  · simp only [hm, if_false]
    omega

mutual
theorem bound_iff_seqsWithinBound : (v : Value) → (level maxLevel : Int) →
    maxLevel < maxInt → level ≤ maxLevel + 1 →
    ((mapDepth (processSchemaForHelp v level maxLevel) : Int) ≤ maxLevel - level + 1 ↔
      seqsWithinBound v level maxLevel = true)
  | .map m, level, maxLevel, hmax, hlevel => by
    by_cases h : level > maxLevel
    · rw [processSchemaForHelp_beyond _ _ _ h]
      simp only [mapDepth, Nat.cast_zero, seqsWithinBound, h, if_true, iff_true]
      omega
    · have ih := bound_iff_entries m level maxLevel hmax (by omega)
      simp only [processSchemaForHelp, seqsWithinBound, h, if_false, mapDepth, Nat.cast_add,
        Nat.cast_one]
      rw [← ih]
      constructor <;> intro _ <;> omega
  | .seq xs, level, maxLevel, hmax, hlevel => by
    by_cases h : level > maxLevel
    · rw [processSchemaForHelp_beyond _ _ _ h]
      simp only [mapDepth, Nat.cast_zero, seqsWithinBound, h, if_true, iff_true]
      omega
    · simp only [processSchemaForHelp, seqsWithinBound, h, if_false, mapDepth,
        decide_eq_true_eq]
  | .null, level, maxLevel, hmax, hlevel => by
    by_cases h : level > maxLevel <;>
      simp [processSchemaForHelp, seqsWithinBound, h, mapDepth] <;> omega
  | .str s, level, maxLevel, hmax, hlevel => by
    by_cases h : level > maxLevel <;>
      simp [processSchemaForHelp, seqsWithinBound, h, mapDepth] <;> omega
  | .int i, level, maxLevel, hmax, hlevel => by
    by_cases h : level > maxLevel <;>
      simp [processSchemaForHelp, seqsWithinBound, h, mapDepth] <;> omega
  | .bool b, level, maxLevel, hmax, hlevel => by
    by_cases h : level > maxLevel <;>
      simp [processSchemaForHelp, seqsWithinBound, h, mapDepth] <;> omega
  | .float t, level, maxLevel, hmax, hlevel => by
    by_cases h : level > maxLevel <;>
      simp [processSchemaForHelp, seqsWithinBound, h, mapDepth] <;> omega
theorem bound_iff_entries : (kvs : List (String × Value)) → (level maxLevel : Int) →
    maxLevel < maxInt → level ≤ maxLevel →
    ((mapDepthEntries (processEntries kvs level maxLevel) : Int) ≤ maxLevel - level ↔
      seqsWithinBoundEntries kvs level maxLevel = true)
  | [], level, maxLevel, hmax, hlevel => by
    simp only [processEntries, mapDepthEntries, Nat.cast_zero, seqsWithinBoundEntries, iff_true]
    omega
  | (k, .map m) :: rest, level, maxLevel, hmax, hlevel => by
    have hinc : incInt level = level + 1 := incInt_of_lt level (by omega)
    have ih1 := bound_iff_seqsWithinBound (.map m) (level + 1) maxLevel hmax (by omega)
    have ih2 := bound_iff_entries rest level maxLevel hmax hlevel
    simp only [processEntries, seqsWithinBoundEntries, Value.isMap, if_true, hinc,
      mapDepthEntries, Nat.cast_max, max_le_iff, Bool.and_eq_true]
    rw [← ih1, ← ih2]
    constructor <;> rintro ⟨h1, h2⟩ <;> exact ⟨by omega, h2⟩
  | (k, .seq xs) :: rest, level, maxLevel, hmax, hlevel => by
    have ih1 := bound_iff_subArray xs level maxLevel hmax hlevel
    have ih2 := bound_iff_entries rest level maxLevel hmax hlevel
    simp only [processEntries, seqsWithinBoundEntries, Value.isMap, Bool.false_eq_true,
      if_false, mapDepthEntries, Nat.cast_max, max_le_iff, Bool.and_eq_true]
    rw [← ih1, ← ih2]
  | (k, .null) :: rest, level, maxLevel, hmax, hlevel => by
    have ih2 := bound_iff_entries rest level maxLevel hmax hlevel
    simp only [processEntries, seqsWithinBoundEntries, Value.isMap, Bool.false_eq_true,
      if_false, mapDepthEntries, mapDepth, Nat.cast_max, Nat.cast_zero, max_le_iff,
      Bool.and_eq_true, true_and]
    rw [← ih2]
    constructor
    · exact fun h => h.2
    · exact fun h => ⟨by omega, h⟩
  | (k, .str s) :: rest, level, maxLevel, hmax, hlevel => by
    have ih2 := bound_iff_entries rest level maxLevel hmax hlevel
    simp only [processEntries, seqsWithinBoundEntries, Value.isMap, Bool.false_eq_true,
      if_false, mapDepthEntries, mapDepth, Nat.cast_max, Nat.cast_zero, max_le_iff,
      Bool.and_eq_true, true_and]
    rw [← ih2]
    constructor
    · exact fun h => h.2
    · exact fun h => ⟨by omega, h⟩
  | (k, .int i) :: rest, level, maxLevel, hmax, hlevel => by
    have ih2 := bound_iff_entries rest level maxLevel hmax hlevel
    simp only [processEntries, seqsWithinBoundEntries, Value.isMap, Bool.false_eq_true,
      if_false, mapDepthEntries, mapDepth, Nat.cast_max, Nat.cast_zero, max_le_iff,
      Bool.and_eq_true, true_and]
    rw [← ih2]
    constructor
    · exact fun h => h.2
    · exact fun h => ⟨by omega, h⟩
  | (k, .bool b) :: rest, level, maxLevel, hmax, hlevel => by
    have ih2 := bound_iff_entries rest level maxLevel hmax hlevel
    simp only [processEntries, seqsWithinBoundEntries, Value.isMap, Bool.false_eq_true,
      if_false, mapDepthEntries, mapDepth, Nat.cast_max, Nat.cast_zero, max_le_iff,
      Bool.and_eq_true, true_and]
    rw [← ih2]
    constructor
    · exact fun h => h.2
    · exact fun h => ⟨by omega, h⟩
  | (k, .float t) :: rest, level, maxLevel, hmax, hlevel => by
    have ih2 := bound_iff_entries rest level maxLevel hmax hlevel
    simp only [processEntries, seqsWithinBoundEntries, Value.isMap, Bool.false_eq_true,
      if_false, mapDepthEntries, mapDepth, Nat.cast_max, Nat.cast_zero, max_le_iff,
      Bool.and_eq_true, true_and]
    rw [← ih2]
    constructor
    · exact fun h => h.2
    · exact fun h => ⟨by omega, h⟩
theorem bound_iff_subArray : (xs : List Value) → (level maxLevel : Int) →
    maxLevel < maxInt → level ≤ maxLevel →
    ((mapDepth (processSubArray xs level maxLevel) : Int) ≤ maxLevel - level ↔
      seqsWithinBoundFirst xs level maxLevel = true)
  | [], level, maxLevel, hmax, hlevel => by
    simp only [processSubArray, mapDepth, Nat.cast_zero, seqsWithinBoundFirst, iff_true]
    omega
  | first :: _, level, maxLevel, hmax, hlevel => by
    have hinc : incInt level = level + 1 := incInt_of_lt level (by omega)
    have ih := bound_iff_seqsWithinBound first (level + 1) maxLevel hmax (by omega)
    simp only [processSubArray, seqsWithinBoundFirst, hinc, mapDepth, mapDepthList,
      Nat.cast_max, Nat.cast_zero, max_le_iff]
    rw [← ih]
    constructor
    · exact fun h => by omega
    · exact fun h => ⟨by omega, by omega⟩
end

mutual
theorem mapDepth_at_maxInt : (v : Value) → (level : Int) → level ≤ maxInt →
    mapDepth (processSchemaForHelp v level maxInt) = reachDepth v
  | .map m, level, hlevel => by
    have h : ¬ level > maxInt := by omega
    simp only [processSchemaForHelp, h, if_false, mapDepth, reachDepth,
      mapDepthEntries_at_maxInt m level hlevel]
  | .seq xs, level, hlevel => by
    have h : ¬ level > maxInt := by omega
    simp only [processSchemaForHelp, h, if_false, mapDepth, reachDepth]
  | .null, level, hlevel => by
    have h : ¬ level > maxInt := by omega
    simp only [processSchemaForHelp, h, if_false, mapDepth, reachDepth]
  | .str s, level, hlevel => by
    have h : ¬ level > maxInt := by omega
    simp only [processSchemaForHelp, h, if_false, mapDepth, reachDepth]
  | .int i, level, hlevel => by
    have h : ¬ level > maxInt := by omega
    simp only [processSchemaForHelp, h, if_false, mapDepth, reachDepth]
  | .bool b, level, hlevel => by
    have h : ¬ level > maxInt := by omega
    simp only [processSchemaForHelp, h, if_false, mapDepth, reachDepth]
  | .float t, level, hlevel => by
    have h : ¬ level > maxInt := by omega
    simp only [processSchemaForHelp, h, if_false, mapDepth, reachDepth]
theorem mapDepthEntries_at_maxInt : (kvs : List (String × Value)) → (level : Int) →
    level ≤ maxInt →
    mapDepthEntries (processEntries kvs level maxInt) = reachDepthEntries kvs
  | [], level, hlevel => by
    simp only [processEntries, mapDepthEntries, reachDepthEntries]
  | (k, .map m) :: rest, level, hlevel => by
    simp only [processEntries, reachDepthEntries, Value.isMap, if_true, mapDepthEntries,
      mapDepth_at_maxInt (.map m) (incInt level) (incInt_le_maxInt level hlevel),
      mapDepthEntries_at_maxInt rest level hlevel]
  | (k, .seq xs) :: rest, level, hlevel => by
    simp only [processEntries, reachDepthEntries, Value.isMap, Bool.false_eq_true, if_false,
      mapDepthEntries, mapDepthSubArray_at_maxInt xs level hlevel,
      mapDepthEntries_at_maxInt rest level hlevel]
  | (k, .null) :: rest, level, hlevel => by
    simp only [processEntries, reachDepthEntries, Value.isMap, Bool.false_eq_true, if_false,
      mapDepthEntries, mapDepth, mapDepthEntries_at_maxInt rest level hlevel]
  | (k, .str s) :: rest, level, hlevel => by
    simp only [processEntries, reachDepthEntries, Value.isMap, Bool.false_eq_true, if_false,
      mapDepthEntries, mapDepth, mapDepthEntries_at_maxInt rest level hlevel]
  | (k, .int i) :: rest, level, hlevel => by
    simp only [processEntries, reachDepthEntries, Value.isMap, Bool.false_eq_true, if_false,
      mapDepthEntries, mapDepth, mapDepthEntries_at_maxInt rest level hlevel]
  | (k, .bool b) :: rest, level, hlevel => by
    simp only [processEntries, reachDepthEntries, Value.isMap, Bool.false_eq_true, if_false,
      mapDepthEntries, mapDepth, mapDepthEntries_at_maxInt rest level hlevel]
  | (k, .float t) :: rest, level, hlevel => by
    simp only [processEntries, reachDepthEntries, Value.isMap, Bool.false_eq_true, if_false,
      mapDepthEntries, mapDepth, mapDepthEntries_at_maxInt rest level hlevel]
theorem mapDepthSubArray_at_maxInt : (xs : List Value) → (level : Int) → level ≤ maxInt →
    mapDepth (processSubArray xs level maxInt) = reachDepthFirst xs
  | [], level, hlevel => by
    simp only [processSubArray, mapDepth, reachDepthFirst]
  | first :: _, level, hlevel => by
    simp only [processSubArray, reachDepthFirst, mapDepth, mapDepthList,
      mapDepth_at_maxInt first (incInt level) (incInt_le_maxInt level hlevel)]
    omega
end

theorem processSchemaForHelp_seq (xs : List Value) (level maxLevel : Int)
    (h : level ≤ maxLevel) : processSchemaForHelp (.seq xs) level maxLevel = .seq xs := by
  have hn : ¬ level > maxLevel := by omega
  simp [processSchemaForHelp, hn]

theorem processSchemaForHelp_map (m : List (String × Value)) (level maxLevel : Int)
    (h : level ≤ maxLevel) :
    processSchemaForHelp (.map m) level maxLevel = .map (processEntries m level maxLevel) := by
  have hn : ¬ level > maxLevel := by omega
  simp [processSchemaForHelp, hn]

theorem processEntries_cons (k : String) (v : Value) (rest : List (String × Value))
    (level maxLevel : Int) :
    processEntries ((k, v) :: rest) level maxLevel =
      (k, if v.isMap then processSchemaForHelp v (incInt level) maxLevel
          else
            match v with
            | .seq subArray => processSubArray subArray level maxLevel
            | other => .str ("<" ++ typeName other ++ ">")) ::
        processEntries rest level maxLevel := by
  cases v <;> rfl

theorem processEntries_keys (m : List (String × Value)) (level maxLevel : Int) :
    GoMap.keys (processEntries m level maxLevel) = GoMap.keys m := by
  induction m with
  | nil => rfl
  | cons e m ih =>
    obtain ⟨k, v⟩ := e
    rw [processEntries_cons]
    simp only [GoMap.keys, List.map_cons] at ih ⊢
    rw [ih]

theorem processEntries_mem_map (m : List (String × Value)) (level maxLevel : Int)
    (k : String) (sub : List (String × Value)) (hmem : (k, Value.map sub) ∈ m) :
    (k, processSchemaForHelp (.map sub) (incInt level) maxLevel) ∈
      processEntries m level maxLevel := by
  induction m with
  | nil => simp at hmem
  | cons e m ih =>
    obtain ⟨k', v'⟩ := e
    simp only [List.mem_cons, Prod.mk.injEq] at hmem
    rcases hmem with ⟨hk, hv⟩ | hmem
    · subst hk hv
      rw [processEntries_cons]
      simp [Value.isMap]
    · rw [processEntries_cons]
      exact List.mem_cons_of_mem _ (ih hmem)

/-- C16, as the code has it: the limiter is a total function (a structural
recursion on the node); above `maxLevel` its result is the placeholder
`<Nested data: L{level}+>` whatever the node is; at `level ≤ maxLevel` a node
that is a sequence is returned unchanged. For `maxLevel` below the largest `int`
the mappings of the result are nested at most `maxLevel - level + 1` deep exactly
when every sequence the limiter meets as a node at a level `l ≤ maxLevel`, which
it returns unchanged, has its mappings nested at most `maxLevel - l + 1` deep. For
`maxLevel` the largest `int`, `level + 1` wraps, no level is above `maxLevel`, and
the result is as deep as the mappings the limiter reaches. -/
theorem C16_depth_limiter (v : Value) (level maxLevel : Int) :
    (level > maxLevel →
        processSchemaForHelp v level maxLevel =
          .str ("<Nested data: L" ++ toString level ++ "+>")) ∧
      (level ≤ maxLevel → ∀ xs : List Value,
        processSchemaForHelp (.seq xs) level maxLevel = .seq xs) ∧
      (level ≤ maxLevel → maxLevel < maxInt →
        ((mapDepth (processSchemaForHelp v level maxLevel) : Int) ≤ maxLevel - level + 1 ↔
          seqsWithinBound v level maxLevel = true)) ∧
      (level ≤ maxLevel → maxLevel = maxInt →
        mapDepth (processSchemaForHelp v level maxLevel) = reachDepth v) := by
  refine ⟨processSchemaForHelp_beyond v level maxLevel,
    fun hle xs => processSchemaForHelp_seq xs level maxLevel hle,
    fun hle hmax => bound_iff_seqsWithinBound v level maxLevel hmax (by omega), ?_⟩
  intro hle hmax
  subst hmax
  exact mapDepth_at_maxInt v level hle

/-- C16 (amended) at the call site, level 1 and `maxLevel` 1: a mapping whose value
is a sequence holding a sequence comes out with mappings nested 1 deep, within
the bound; above `maxLevel` the result is the placeholder; at `maxLevel` the
largest `int` a mapping of a mapping of a mapping comes out 3 deep. -/
theorem C16_depth_limiter_witness :
    (mapDepth (processSchemaForHelp sequenceInSequence 1 1) : Int) ≤ 1 - 1 + 1 ∧
      processSchemaForHelp threeMappings 3 2 = .str "<Nested data: L3+>" ∧
      mapDepth (processSchemaForHelp threeMappings maxInt maxInt) = 3 :=
  ⟨((C16_depth_limiter sequenceInSequence 1 1).2.2.1 (by decide) (by decide)).2 (by decide),
    (C16_depth_limiter threeMappings 3 2).1 (by decide),
    ((C16_depth_limiter threeMappings maxInt maxInt).2.2.2 (by decide) rfl).trans (by decide)⟩

/-- C16 fails as stated: at level 1 and `maxLevel` 1 a sequence that holds a
mapping of a mapping of a mapping is returned unchanged, with mappings nested 3
deep, more than `maxLevel - level + 1 = 1`; at `maxLevel` 2 a mapping whose value
is a sequence holding that sequence comes out with mappings nested 4 deep, more
than 2; at level and `maxLevel` the largest `int`, `level + 1` wraps to the
smallest `int` and a mapping of a mapping of a mapping is expanded at every
level, 3 deep, more than 1. -/
theorem C16_counterexample :
    processSchemaForHelp sequenceOfMappings 1 1 = sequenceOfMappings ∧
      mapDepth (processSchemaForHelp sequenceOfMappings 1 1) = 3 ∧
      ¬ ((mapDepth (processSchemaForHelp sequenceOfMappings 1 1) : Int) ≤ 1 - 1 + 1) ∧
      mapDepth (processSchemaForHelp sequenceInSequence 1 2) = 4 ∧
      ¬ ((mapDepth (processSchemaForHelp sequenceInSequence 1 2) : Int) ≤ 2 - 1 + 1) ∧
      processSchemaForHelp threeMappings maxInt maxInt =
        .map [("a", .map [("b", .map [("c", .str "<string>")])])] ∧
      ¬ ((mapDepth (processSchemaForHelp threeMappings maxInt maxInt) : Int) ≤
        maxInt - maxInt + 1) := by
  refine ⟨rfl, by decide, by decide, by decide, by decide, rfl, by decide⟩

/-- C17, as the code has it: at level 1 and `maxLevel` 1, for a mapping whose
value under a key is a mapping, whatever that mapping holds, the result is a
mapping with the same keys whose value under that key is the depth marker
`<Nested data: L2+>`: the second level is the one collapsed. -/
theorem C17_second_level_collapsed (m : GoMap Value) (k : String)
    (sub : List (String × Value)) (hwf : m.WellFormed) (hmem : (k, Value.map sub) ∈ m) :
    ∃ simplified : GoMap Value,
      processSchemaForHelp (.map m) 1 1 = .map simplified ∧
        simplified.keys = m.keys ∧
        simplified.get k = some (.str "<Nested data: L2+>") := by
  refine ⟨processEntries m 1 1, processSchemaForHelp_map m 1 1 (by omega),
    processEntries_keys m 1 1, ?_⟩
  have hwf' : GoMap.WellFormed (processEntries m 1 1) := by
    unfold GoMap.WellFormed
    rw [processEntries_keys]
    exact hwf
  have hin := processEntries_mem_map m 1 1 k sub hmem
  have hinc : incInt 1 = 2 := by decide
  rw [hinc, processSchemaForHelp_beyond _ _ _ (by omega)] at hin
  exact GoMap.get_of_mem _ k _ hwf' hin

/-- C17 (amended) at a mapping of a mapping of a mapping: the value under the
first key is the depth marker. -/
theorem C17_second_level_collapsed_witness :
    ∃ simplified : GoMap Value,
      processSchemaForHelp threeMappings 1 1 = .map simplified ∧
        simplified.keys = ["a"] ∧
        simplified.get "a" = some (.str "<Nested data: L2+>") :=
  C17_second_level_collapsed [("a", .map [("b", .map [("c", .str "x")])])] "a"
    [("b", .map [("c", .str "x")])] (by decide) (List.mem_singleton.2 rfl)

/-- C17 fails as stated: for a mapping of a mapping of a mapping the result is the
mapping whose value under the first key is the depth marker string, so that value
is not a mapping with a collapsed innermost level. -/
theorem C17_counterexample :
    processSchemaForHelp threeMappings 1 1 = .map [("a", .str "<Nested data: L2+>")] ∧
      GoMap.get [("a", Value.str "<Nested data: L2+>")] "a" =
        some (.str "<Nested data: L2+>") ∧
      Value.isMap (.str "<Nested data: L2+>") = false := by
  refine ⟨rfl, rfl, rfl⟩

/-! ## Lemmas on the structured help document and on the help flags -/

theorem jsonHelpOutput_arguments (hc : HelpContent) :
    (jsonHelpOutput hc).get "arguments" =
      some (if (hc.Arguments.map argInfo).length > 0
        then .seq ((hc.Arguments.map argInfo).map Value.map) else .str "None") := by
  unfold jsonHelpOutput
  simp only
  rw [GoMap.get_set_ne _ _ _ _ (by decide), GoMap.get_set_ne _ _ _ _ (by decide),
    GoMap.get_set_ne _ _ _ _ (by decide)]
  split <;> rw [GoMap.get_set_self]

theorem argInfo_eq (arg : ArgHelp) :
    argInfo arg =
      [("name", .str arg.Name), ("type", .str arg.Typ), ("required", .bool arg.Required),
        ("description", .str arg.Description)] ++
        (if arg.Default ≠ "" then [("default", .str arg.Default)] else []) := by
  unfold argInfo
  by_cases h : arg.Default = ""
  · simp [h]
  · simp only [ne_eq, h, not_false_eq_true, if_true]
    rw [GoMap.set_of_not_mem _ _ _ (by simp [GoMap.keys])]

theorem foldl_checkHelpFlagsBody (args : List String) (st : HelpFlags) :
    (args.foldl checkHelpFlagsBody st).showJSONHelp = (st.showJSONHelp || decide ("-h" ∈ args)) ∧
      (args.foldl checkHelpFlagsBody st).showTextHelp =
        (st.showTextHelp || decide ("-hh" ∈ args)) ∧
      (args.foldl checkHelpFlagsBody st).remainingArgs =
        st.remainingArgs ++ args.filter (fun a => decide (a ≠ "-h" ∧ a ≠ "-hh")) := by
  induction args generalizing st with
  | nil => simp
  | cons a as ih =>
    simp only [List.foldl_cons]
    obtain ⟨h1, h2, h3⟩ := ih (checkHelpFlagsBody st a)
    rw [h1, h2, h3]
    by_cases ha : a = "-h"
    · subst ha
      simp [checkHelpFlagsBody]
    · by_cases hb : a = "-hh"
      · subst hb
        simp [checkHelpFlagsBody]
      · have ha' : ¬ "-h" = a := fun e => ha e.symm
        have hb' : ¬ "-hh" = a := fun e => hb e.symm
        simp [checkHelpFlagsBody, ha, hb, ha', hb', List.filter_cons]

/-- C18: the field `arguments` of the structured help document is the string
`None` exactly when the record has no argument; otherwise it is the list of one
entry per argument, in the order of the record, each entry holding `name`,
`type`, `required` and `description` of the argument, and the key `default` (with
the default of the argument) exactly when that default string is not empty. -/
theorem C18_json_help_arguments (hc : HelpContent) :
    ((jsonHelpOutput hc).get "arguments" = some (.str "None") ↔ hc.Arguments = []) ∧
      (hc.Arguments = [] ∨
        (jsonHelpOutput hc).get "arguments" =
          some (.seq (hc.Arguments.map fun arg =>
            .map ([("name", .str arg.Name), ("type", .str arg.Typ),
                   ("required", .bool arg.Required),
                   ("description", .str arg.Description)] ++
                  (if arg.Default ≠ "" then [("default", .str arg.Default)] else []))))) ∧
      (∀ arg : ArgHelp,
        ("default" ∈ GoMap.keys (argInfo arg) ↔ arg.Default ≠ "") ∧
          (arg.Default ≠ "" → GoMap.get (argInfo arg) "default" = some (.str arg.Default))) ∧
      (jsonHelpOutput sampleHelpContent).get "arguments" =
        some (.seq
          [.map [("name", .str "id"), ("type", .str "integer"), ("required", .bool true),
                 ("description", .str "The id")],
           .map [("name", .str "order"), ("type", .str "string"), ("required", .bool false),
                 ("description", .str "Order"), ("default", .str "asc")]]) := by
  refine ⟨?_, ?_, ?_, rfl⟩
  · rw [jsonHelpOutput_arguments]
    cases hargs : hc.Arguments with
    | nil => simp
    | cons a as => simp
  · cases hargs : hc.Arguments with
    | nil => exact Or.inl rfl
    | cons a as =>
      right
      rw [jsonHelpOutput_arguments, hargs]
      simp only [List.map_cons, List.length_cons, gt_iff_lt, Nat.zero_lt_succ, if_true,
        List.map_map, argInfo_eq, Function.comp_def]
  · intro arg
    rw [argInfo_eq]
    by_cases h : arg.Default = ""
    · simp [h, GoMap.keys]
    · simp [h, GoMap.keys, GoMap.get, List.lookup]

/-- C19: `showTextHelp` is true exactly when `-hh` occurs in the arguments,
`showJSONHelp` exactly when `-h` occurs and `-hh` does not, so the two are never
both true; `remainingArgs` is the argument list without its `-h` and `-hh`
elements, the others in their order. -/
theorem C19_check_help_flags (args : List String) :
    ((CheckHelpFlags args).showTextHelp = true ↔ "-hh" ∈ args) ∧
      ((CheckHelpFlags args).showJSONHelp = true ↔ ("-h" ∈ args ∧ "-hh" ∉ args)) ∧
      ¬ ((CheckHelpFlags args).showJSONHelp = true ∧
          (CheckHelpFlags args).showTextHelp = true) ∧
      (CheckHelpFlags args).remainingArgs =
        args.filter (fun a => decide (a ≠ "-h" ∧ a ≠ "-hh")) ∧
      CheckHelpFlags ["get", "-hh", "--id", "-h", "5"] =
        { showJSONHelp := false, showTextHelp := true, remainingArgs := ["get", "--id", "5"] } := by
  obtain ⟨h1, h2, h3⟩ := foldl_checkHelpFlagsBody args
    { showJSONHelp := false, showTextHelp := false, remainingArgs := [] }
  simp only [Bool.false_or, List.nil_append] at h1 h2 h3
  have htext : (CheckHelpFlags args).showTextHelp = decide ("-hh" ∈ args) := by
    unfold CheckHelpFlags
    simp only
    split <;> simp_all
  have hjson : (CheckHelpFlags args).showJSONHelp =
      (decide ("-h" ∈ args) && !decide ("-hh" ∈ args)) := by
    unfold CheckHelpFlags
    simp only
    split <;> simp_all
  have hrem : (CheckHelpFlags args).remainingArgs =
      args.filter (fun a => decide (a ≠ "-h" ∧ a ≠ "-hh")) := by
    unfold CheckHelpFlags
    simp only
    split <;> simp_all
  refine ⟨?_, ?_, ?_, hrem, rfl⟩
  · rw [htext]; simp
  · rw [hjson]; simp
  · rw [htext, hjson]; simp

/-- C20, as the code has it: for an operation with a request body whose
content-type map is present and has neither `application/json` nor
`multipart/form-data`, the input-shape summary is `Request Body: Present`,
followed by ` (required)` exactly when the body is required, and so neither
`Path/Query Parameters` nor `None`; a request body without content-type map is
treated as no request body, the summary being `Path/Query Parameters` or
`None`. -/
theorem C20_input_json_other_body (tbl : Char → Bool)
    (specSecurity : List (GoMap (List String))) (spName opID : String)
    (details : OperationDetail) (rb : RequestBody) (hbody : details.RequestBody = some rb) :
    (∀ content : GoMap MediaType, rb.Content = some content →
        "application/json" ∉ GoMap.keys content → "multipart/form-data" ∉ GoMap.keys content →
        (buildHelpGenData tbl specSecurity spName opID details).InputJSON =
            "Request Body: Present" ++ (if rb.Required then " (required)" else "") ∧
          (buildHelpGenData tbl specSecurity spName opID details).InputJSON ≠
            "Path/Query Parameters" ∧
          (buildHelpGenData tbl specSecurity spName opID details).InputJSON ≠ "None") ∧
      (rb.Content = none →
        (buildHelpGenData tbl specSecurity spName opID details).InputJSON =
          (if 0 < details.Parameters.length then "Path/Query Parameters" else "None")) := by
  constructor
  · intro content hcontent hjson hmulti
    have h1 := (GoMap.get_eq_none_iff content "application/json").2 hjson
    have h2 := (GoMap.get_eq_none_iff content "multipart/form-data").2 hmulti
    have hval : (buildHelpGenData tbl specSecurity spName opID details).InputJSON =
        "Request Body: Present" ++ (if rb.Required then " (required)" else "") := by
      simp only [buildHelpGenData, InputJSON, hbody, hcontent, requestBodySummary, h1, h2,
        withRequired]
      by_cases hreq : rb.Required = true <;> simp [hreq]
    refine ⟨hval, ?_, ?_⟩ <;> rw [hval] <;> cases rb.Required <;> decide
  · intro hcontent
    simp only [buildHelpGenData, InputJSON, hbody, hcontent, parametersSummary, paramLoop,
      foldl_paramLoopBody_length]
    simp

/-- C20 (amended) at a required body offered as plain text only: the summary is
`Request Body: Present (required)`. -/
theorem C20_input_json_other_body_witness :
    (buildHelpGenData (fun _ => true) [] "series" "op"
        { bareOperation with RequestBody := some textBody }).InputJSON =
      "Request Body: Present (required)" :=
  ((C20_input_json_other_body (fun _ => true) [] "series" "op"
      { bareOperation with RequestBody := some textBody } textBody rfl).1
    [("text/plain", { Schema := .mk "" "string" .nil })] rfl (by decide) (by decide)).1.trans
    (by decide)

/-- C20 fails as stated: an operation without parameter whose request body is
required and has no content-type map, hence neither of the two content types,
has the summary `None`, not `Request Body: Present (required)`. -/
theorem C20_counterexample :
    bodyWithoutContent.Content = none ∧ bodyWithoutContent.Required = true ∧
      (buildHelpGenData (fun _ => true) [] "series" "op"
          { bareOperation with RequestBody := some bodyWithoutContent }).InputJSON = "None" ∧
      (buildHelpGenData (fun _ => true) [] "series" "op"
          { bareOperation with RequestBody := some bodyWithoutContent }).InputJSON ≠
        "Request Body: Present (required)" := by
  refine ⟨rfl, rfl, by decide, by decide⟩

/-! ## The order of content types, the mapping case of the limiter, and the
summaries in the structured help document -/

theorem processEntries_mem (m : List (String × Value)) (level maxLevel : Int)
    (k : String) (v : Value) :
    (k, v) ∈ m →
    (k, if v.isMap then processSchemaForHelp v (incInt level) maxLevel
        else
          match v with
          | .seq subArray => processSubArray subArray level maxLevel
          | other => .str ("<" ++ typeName other ++ ">")) ∈
      processEntries m level maxLevel := by
  intro hmem
  induction m with
  | nil => simp at hmem
  | cons e m ih =>
    obtain ⟨k', v'⟩ := e
    rw [processEntries_cons]
    simp only [List.mem_cons, Prod.mk.injEq] at hmem
    rcases hmem with ⟨hk, hv⟩ | hmem
    · subst hk hv
      exact List.mem_cons_self _ _
    · exact List.mem_cons_of_mem _ (ih hmem)

theorem processEntries_get (m : GoMap Value) (level maxLevel : Int) (hwf : m.WellFormed)
    (k : String) (v : Value) :
    (k, v) ∈ m →
    GoMap.get (processEntries m level maxLevel) k =
      some (if v.isMap then processSchemaForHelp v (incInt level) maxLevel
        else
          match v with
          | .seq subArray => processSubArray subArray level maxLevel
          | other => .str ("<" ++ typeName other ++ ">")) := by
  intro hmem
  have hwf' : GoMap.WellFormed (processEntries m level maxLevel) := by
    unfold GoMap.WellFormed
    rw [processEntries_keys]
    exact hwf
  exact GoMap.get_of_mem _ k _ hwf' (processEntries_mem m level maxLevel k v hmem)

/-- C21 evaluated at its failing input: a `200` response that declares the two
content types `text/plain` and `text/csv`, neither JSON nor XML. The two
content-type maps hold the same entries, enumerated in two orders, and the
output-shape summary names `text/plain` for the one and `text/csv` for the other:
the summary depends on the order in which the map is enumerated. -/
theorem C21_output_json_depends_on_enumeration :
    twoTextTypes.Perm twoTextTypesReordered ∧
      twoTextTypes.WellFormed ∧
      "application/json" ∉ GoMap.keys twoTextTypes ∧
      "application/xml" ∉ GoMap.keys twoTextTypes ∧
      (buildHelpGenData (fun _ => true) [] "series" "op"
          (operationWithContent twoTextTypes)).OutputJSON = "Output (on 200): text/plain" ∧
      (buildHelpGenData (fun _ => true) [] "series" "op"
          (operationWithContent twoTextTypesReordered)).OutputJSON =
        "Output (on 200): text/csv" ∧
      (buildHelpGenData (fun _ => true) [] "series" "op"
          (operationWithContent twoTextTypes)).OutputJSON ≠
        (buildHelpGenData (fun _ => true) [] "series" "op"
          (operationWithContent twoTextTypesReordered)).OutputJSON := by
  refine ⟨List.Perm.swap _ _ _, by decide, by decide, by decide, by decide, by decide,
    by decide⟩

/-- C22: for a mapping node at `level ≤ maxLevel` the limiter returns a mapping
with the keys of the input, in which the value under a key whose input value `v`
is a mapping is `v` limited at `level + 1`; is, for a non-empty sequence `v`, the
one-element sequence of the first element of `v` limited at `level + 1`, whatever
the other elements; and is otherwise (scalar, string, empty sequence, null) the
marker string `<T>` with `T` the name of the type of `v`. Here `level + 1` is the
Go expression on an `int`, `incInt level`: the integer `level + 1` for every
level below the largest `int`, the smallest `int` at the largest. -/
theorem C22_mapping_node (m : GoMap Value) (level maxLevel : Int)
    (hlevel : level ≤ maxLevel) (hwf : m.WellFormed) :
    (level < maxInt → incInt level = level + 1) ∧
      (level = maxInt → incInt level = minInt) ∧
      ∃ simplified : GoMap Value,
        processSchemaForHelp (.map m) level maxLevel = .map simplified ∧
          simplified.keys = m.keys ∧
          ∀ (k : String) (v : Value), (k, v) ∈ m →
            (∀ sub, v = .map sub →
              simplified.get k =
                some (processSchemaForHelp (.map sub) (incInt level) maxLevel)) ∧
            (∀ first rest, v = .seq (first :: rest) →
              simplified.get k =
                some (.seq [processSchemaForHelp first (incInt level) maxLevel])) ∧
            (v.isMap = false → (∀ first rest, v ≠ .seq (first :: rest)) →
              simplified.get k = some (.str ("<" ++ typeName v ++ ">"))) := by
  refine ⟨incInt_of_lt level, fun h => by simp [incInt, h],
    processEntries m level maxLevel, processSchemaForHelp_map m level maxLevel hlevel,
    processEntries_keys m level maxLevel, ?_⟩
  intro k v hmem
  have hget := processEntries_get m level maxLevel hwf k v hmem
  refine ⟨?_, ?_, ?_⟩
  · intro sub hv
    subst hv
    rw [hget]
    simp [Value.isMap]
  · intro first rest hv
    subst hv
    rw [hget]
    simp [Value.isMap, processSubArray]
  · intro hnomap hnoseq
    rw [hget]
    cases v with
    | map sub => simp [Value.isMap] at hnomap
    | seq xs =>
      cases xs with
      | nil => simp [Value.isMap, processSubArray]
      | cons first rest => exact absurd rfl (hnoseq first rest)
    | null => simp [Value.isMap]
    | str s => simp [Value.isMap]
    | int i => simp [Value.isMap]
    | bool b => simp [Value.isMap]
    | float t => simp [Value.isMap]

/-- C22 at a mapping with a mapping, a two-element sequence, an empty sequence, a
string and a null as values, at level 1 and `maxLevel` 2; and at a mapping of a
mapping of a mapping at level and `maxLevel` the largest `int`, where the inner
mapping is limited at the smallest `int` and so expanded. -/
theorem C22_mapping_node_witness :
    processSchemaForHelp (.map mixedEntries) 1 2 =
        .map [("a", .map [("x", .str "<int>")]), ("b", .seq [.str "s"]),
              ("c", .str "<[]interface \x7b\x7d>"), ("d", .str "<string>"),
              ("e", .str "<<nil>>")] ∧
      (∃ simplified : GoMap Value,
        processSchemaForHelp (.map mixedEntries) 1 2 = .map simplified ∧
          simplified.keys = ["a", "b", "c", "d", "e"] ∧
          simplified.get "b" = some (.seq [processSchemaForHelp (.str "s") 2 2])) ∧
      (∃ simplified : GoMap Value,
        processSchemaForHelp threeMappings maxInt maxInt = .map simplified ∧
          simplified.get "a" =
            some (processSchemaForHelp (.map [("b", .map [("c", .str "x")])]) minInt maxInt)) ∧
      processSchemaForHelp threeMappings maxInt maxInt =
        .map [("a", .map [("b", .map [("c", .str "<string>")])])] :=
  ⟨rfl,
    (C22_mapping_node mixedEntries 1 2 (by decide) (by decide)).2.2.imp fun _ h =>
      ⟨h.1, h.2.1, (h.2.2 "b" (.seq [.str "s", .map [("y", .map [])]])
        (List.mem_cons_of_mem _ (List.mem_cons_self _ _))).2.1 _ _ rfl⟩,
    (C22_mapping_node [("a", .map [("b", .map [("c", .str "x")])])] maxInt maxInt
      (by decide) (by decide)).2.2.imp fun _ h =>
      ⟨h.1, (h.2.2 "a" (.map [("b", .map [("c", .str "x")])])
        (List.mem_cons_self _ _)).1 _ rfl⟩,
    rfl⟩

/-- C23: for a help record whose input-shape and output-shape summaries are
strings, the fields `expected_input_schema` and `expected_output_schema` of the
structured help document are exactly those strings: the limiter at level 1 and
`maxLevel` 1 returns a string unchanged. -/
theorem C23_summaries_unchanged (hc : HelpContent) (input output : String)
    (hin : hc.InputJSON = .str input) (hout : hc.OutputJSON = .str output) :
    (jsonHelpOutput hc).get "expected_input_schema" = some (.str input) ∧
      (jsonHelpOutput hc).get "expected_output_schema" = some (.str output) ∧
      processSchemaForHelp (.str input) 1 1 = .str input ∧
      processSchemaForHelp (.str output) 1 1 = .str output := by
  have hstr : ∀ s : String, processSchemaForHelp (.str s) 1 1 = .str s := by
    intro s
    simp [processSchemaForHelp]
  refine ⟨?_, ?_, hstr input, hstr output⟩
  · unfold jsonHelpOutput
    simp only
    rw [GoMap.get_set_ne _ _ _ _ (by decide), GoMap.get_set_ne _ _ _ _ (by decide),
      GoMap.get_set_self, hin, hstr]
  · unfold jsonHelpOutput
    simp only
    rw [GoMap.get_set_ne _ _ _ _ (by decide), GoMap.get_set_self, hout, hstr]

/-- C23 at a record that carries the summaries the generator builds: the
structured help document shows `None` and `Schema (on 200): <Foo:L1>` as they
are. -/
theorem C23_summaries_unchanged_witness :
    (jsonHelpOutput generatedHelpContent).get "expected_input_schema" = some (.str "None") ∧
      (jsonHelpOutput generatedHelpContent).get "expected_output_schema" =
        some (.str "Schema (on 200): <Foo:L1>") :=
  ⟨(C23_summaries_unchanged generatedHelpContent "None" "Schema (on 200): <Foo:L1>"
      (congrArg Value.str (by decide)) (congrArg Value.str (by decide))).1,
    (C23_summaries_unchanged generatedHelpContent "None" "Schema (on 200): <Foo:L1>"
      (congrArg Value.str (by decide)) (congrArg Value.str (by decide))).2.1⟩

end HelpCodeGen
